import Mathlib

/-! Castle game (`src/main.cpp`): shallow embedding and verified properties.

The embedding follows `src/main.cpp` class by class.

* The C++ `float` values of `Character` and `MazeLevel` are modelled by exact
  rationals (`ℚ`): every arithmetic operation is taken without rounding.
* The `float` values of `Dog` are modelled as IEEE-754 binary32 values (`F32`):
  every operation is rounded to nearest, ties to even, one operation at a time.
* C++ `int` values are modelled by `Int`; a conversion or an addition whose
  result leaves the 32-bit range is undefined behaviour and is modelled by
  `none`, as is an out-of-range `std::vector` subscript and the read of a field
  that was never assigned.
* Calls into SDL (drawing, sound playback) have no effect on the state modelled
  here and are left out.
-/

namespace CastleGame

/-! ## Constants and machine arithmetic -/

def WINDOW_WIDTH : Int := 800

def WINDOW_HEIGHT : Int := 600

def GROUND_LEVEL : ℚ := 500

inductive GameState where
  | INTRO
  | MAZE
  | VICTORY
deriving DecidableEq, Repr

def INT_MIN : Int := -2147483648

def INT_MAX : Int := 2147483647

/-- A value of C++ type `int`: defined only inside the 32-bit range. -/
def checkedInt (z : Int) : Option Int :=
  if INT_MIN ≤ z ∧ z ≤ INT_MAX then some z else none

/-- The conversion `static_cast<int>(f)` of a `float`: truncation toward zero,
undefined when the truncated value is not representable. -/
def floatToInt (q : ℚ) : Option Int :=
  checkedInt (if 0 ≤ q then ⌊q⌋ else ⌈q⌉)

/-- C++ `int / int`: truncating division, undefined for a zero divisor or an
unrepresentable quotient. -/
def intDiv (a b : Int) : Option Int :=
  if b = 0 then none else checkedInt (Int.tdiv a b)

/-- C++ `int + int`. -/
def intAdd (a b : Int) : Option Int := checkedInt (a + b)

/-- C++ `int * int`. -/
def intMul (a b : Int) : Option Int := checkedInt (a * b)

/-- The fields of an `SDL_Rect`. -/
structure SDL_Rect where
  x : Int
  y : Int
  w : Int
  h : Int
deriving DecidableEq, Repr

/-! ## Character -/

structure Character where
  x : ℚ
  y : ℚ
  originalY : ℚ
  velocity : ℚ
  isJumping : Bool
  canJump : Bool
  movementSpeed : ℚ
deriving DecidableEq

namespace Character

def gravity : ℚ := 2000

def initialJumpVelocity : ℚ := -900

def characterWidth : Int := 32

def characterHeight : Int := 56

/-- The constructor `Character(renderer, x, y, jumpSound)`. -/
def create (x y : ℚ) : Character :=
  { x := x, y := y, originalY := y, velocity := 0, isJumping := false,
    canJump := true, movementSpeed := 200 }

def disableJump (c : Character) : Character :=
  { c with canJump := false }

def startJump (c : Character) : Character :=
  if c.canJump && !c.isJumping then
    { c with isJumping := true, velocity := initialJumpVelocity }
  else c

def moveLeft (c : Character) (deltaTime : ℚ) : Character :=
  let x1 := c.x - c.movementSpeed * deltaTime
  { c with x := if x1 < 0 then 0 else x1 }

def moveRight (c : Character) (deltaTime : ℚ) : Character :=
  let x1 := c.x + c.movementSpeed * deltaTime
  { c with x := if x1 > ((WINDOW_WIDTH - characterWidth : Int) : ℚ)
                then ((WINDOW_WIDTH - characterWidth : Int) : ℚ) else x1 }

def moveUp (c : Character) (deltaTime : ℚ) : Character :=
  let y1 := c.y - c.movementSpeed * deltaTime
  { c with y := if y1 < 0 then 0 else y1 }

def moveDown (c : Character) (deltaTime : ℚ) : Character :=
  let y1 := c.y + c.movementSpeed * deltaTime
  { c with y := if y1 > ((WINDOW_HEIGHT - characterHeight : Int) : ℚ)
                then ((WINDOW_HEIGHT - characterHeight : Int) : ℚ) else y1 }

def moveTo (c : Character) (newX newY : ℚ) : Character :=
  { c with x := newX, y := newY }

def setMovementSpeed (c : Character) (speed : ℚ) : Character :=
  { c with movementSpeed := speed }

def update (c : Character) (deltaTime : ℚ) : Character :=
  if c.canJump && c.isJumping then
    let v1 := c.velocity + gravity * deltaTime
    let y1 := c.y + v1 * deltaTime
    if y1 ≥ c.originalY then
      { c with velocity := 0, y := c.originalY, isJumping := false }
    else
      { c with velocity := v1, y := y1 }
  else c

def getX (c : Character) : ℚ := c.x

def getY (c : Character) : ℚ := c.y

def getRect (c : Character) : Option SDL_Rect := do
  let rx ← floatToInt c.x
  let ry ← floatToInt c.y
  pure { x := rx, y := ry, w := characterWidth, h := characterHeight }

/-- The bounding box of a character lies in the window. -/
def InWindow (c : Character) : Prop :=
  0 ≤ c.x ∧ c.x + (characterWidth : ℚ) ≤ (WINDOW_WIDTH : ℚ) ∧
  0 ≤ c.y ∧ c.y + (characterHeight : ℚ) ≤ (WINDOW_HEIGHT : ℚ)

/-- The state after `n` calls of `update(deltaTime)`. -/
def updateN (c : Character) (deltaTime : ℚ) : Nat → Character
  | 0 => c
  | n + 1 => (updateN c deltaTime n).update deltaTime

/-- The call of `update` at which a jump started at rest lands, for a fixed
positive `deltaTime`. -/
def landingCall (deltaTime : ℚ) : Nat :=
  max 1 (⌈(9 / 10 : ℚ) / deltaTime⌉₊ - 1)

/-- The number of calls of `update` that lower `y` during such a jump. -/
def turningCall (deltaTime : ℚ) : Nat :=
  min (landingCall deltaTime - 1) (⌈(9 / 20 : ℚ) / deltaTime⌉₊ - 1)

end Character

/-! ## Single-precision floats -/

/-- Rounding of a rational to the nearest integer, a tie going to the even one. -/
def roundHalfEven (q : ℚ) : Int :=
  if q - (⌊q⌋ : ℚ) < 1 / 2 then ⌊q⌋
  else if 1 / 2 < q - (⌊q⌋ : ℚ) then ⌊q⌋ + 1
  else if ⌊q⌋ % 2 = 0 then ⌊q⌋ else ⌊q⌋ + 1

/-- The exponent `e` with `2 ^ e ≤ |q| < 2 ^ (e + 1)`, held at the least normal
exponent `-126` for smaller values (the subnormal range and zero). -/
def binadeExp (q : ℚ) : Int := max (Int.log 2 |q|) (-126)

/-- The unit in the last place of a binary32 value in the binade of `q`: the
significand has 24 bits. -/
def ulp (q : ℚ) : ℚ := (2 : ℚ) ^ (binadeExp q - 23)

/-- The multiple of `ulp q` nearest to `q`, ties to even: round-to-nearest
without the bound on the exponent. -/
def roundToSingle (q : ℚ) : ℚ := (roundHalfEven (q / ulp q) : ℚ) * ulp q

/-- A value of type `float` (IEEE-754 binary32): a finite number, an infinity
or a NaN. The sign of a zero is not kept: no operation modelled here tells the
two zeros apart. -/
inductive F32 where
  | finite (value : ℚ)
  | posInf
  | negInf
  | nan
deriving DecidableEq

namespace F32

/-- The `float` nearest to a rational: a result of magnitude `2 ^ 128` or more
is an infinity. -/
def ofRat (q : ℚ) : F32 :=
  if (2 : ℚ) ^ (128 : Nat) ≤ roundToSingle q then posInf
  else if roundToSingle q ≤ -(2 : ℚ) ^ (128 : Nat) then negInf
  else finite (roundToSingle q)

/-- The conversion of an `int` to `float`. -/
def ofInt (z : Int) : F32 := ofRat (z : ℚ)

def neg : F32 → F32
  | finite a => finite (-a)
  | posInf => negInf
  | negInf => posInf
  | nan => nan

/-- The sum `a + b` in `float`. -/
def add : F32 → F32 → F32
  | finite a, finite b => ofRat (a + b)
  | nan, _ => nan
  | _, nan => nan
  | posInf, negInf => nan
  | negInf, posInf => nan
  | posInf, _ => posInf
  | _, posInf => posInf
  | negInf, _ => negInf
  | _, negInf => negInf

/-- The difference `a - b` in `float`. -/
def sub (a b : F32) : F32 := add a (neg b)

/-- An infinity times a finite number. -/
def infTimes (positive : Bool) (a : ℚ) : F32 :=
  if a = 0 then nan
  else if decide (0 < a) = positive then posInf else negInf

/-- The product `a * b` in `float`. -/
def mul : F32 → F32 → F32
  | finite a, finite b => ofRat (a * b)
  | nan, _ => nan
  | _, nan => nan
  | posInf, finite b => infTimes true b
  | negInf, finite b => infTimes false b
  | finite a, posInf => infTimes true a
  | finite a, negInf => infTimes false a
  | posInf, posInf => posInf
  | negInf, negInf => posInf
  | posInf, negInf => negInf
  | negInf, posInf => negInf

/-- The comparison `a < b` in `float`: false when either side is a NaN. -/
def lt : F32 → F32 → Bool
  | finite a, finite b => decide (a < b)
  | nan, _ => false
  | _, nan => false
  | negInf, negInf => false
  | negInf, _ => true
  | _, negInf => false
  | posInf, _ => false
  | finite _, posInf => true

/-- The comparison `a > b` in `float`. -/
def gt (a b : F32) : Bool := lt b a

end F32


/-! ## Dog -/

structure Dog where
  x : F32
  y : F32
  movingRight : Bool
deriving DecidableEq

namespace Dog

def speed : F32 := F32.finite 200

def dogWidth : Int := 32

/-- The constructor `Dog(renderer, x, y, dieSound)`. -/
def create (x y : F32) : Dog :=
  { x := x, y := y, movingRight := true }

/-- The method `Dog::update`, each `float` operation rounded to nearest; the
proximity test that follows the movement only plays a sound. -/
def update (d : Dog) (deltaTime _playerX _playerY : F32) : Dog :=
  if d.movingRight then
    let x1 := F32.add d.x (F32.mul speed deltaTime)
    { d with x := x1,
             movingRight := if F32.gt x1 (F32.ofInt (WINDOW_WIDTH - dogWidth)) then false
                            else d.movingRight }
  else
    let x1 := F32.sub d.x (F32.mul speed deltaTime)
    { d with x := x1,
             movingRight := if F32.lt x1 (F32.ofInt 0) then true else d.movingRight }

end Dog

/-! ## DialogSystem -/

structure DialogSystem where
  dialogs : List String
  dialogIndex : Int
  finished : Bool
deriving DecidableEq

namespace DialogSystem

/-- The constructor `DialogSystem(renderer, font)`. -/
def create : DialogSystem :=
  { dialogs := ["Aventurero, salvameee, estoy atrapada en el castillo.",
                "Supera los desafios para poder salvarme.",
                "Cuento contigo, suerte."],
    dialogIndex := 0,
    finished := false }

/-- The method `advanceDialog`; the comparison `dialogIndex < dialogs.size() - 1`
is made in the unsigned 64-bit type of `size()`. -/
def advanceDialog (d : DialogSystem) : DialogSystem :=
  if d.dialogIndex % 2 ^ 64 < ((d.dialogs.length : Int) - 1) % 2 ^ 64 then
    { d with dialogIndex := d.dialogIndex + 1 }
  else
    { d with finished := true }

def isFinished (d : DialogSystem) : Bool := d.finished

/-- The line `dialogs[dialogIndex]` that `renderDialog` draws. -/
def currentLine (d : DialogSystem) : Option String :=
  if 0 ≤ d.dialogIndex then d.dialogs[d.dialogIndex.toNat]? else none

/-- The state after `k` calls of `advanceDialog`. -/
def advanceN (d : DialogSystem) : Nat → DialogSystem
  | 0 => d
  | k + 1 => (advanceN d k).advanceDialog

end DialogSystem

/-! ## MazeLevel -/

/-- The state of a `MazeLevel`. The fields `startX`, `startY`, `endX`, `endY`
have no initialiser: `none` stands for a field that was never assigned. -/
structure MazeLevel where
  mazeMap : List (List Int)
  tileWidth : Int
  tileHeight : Int
  startX : Option Int
  startY : Option Int
  endX : Option Int
  endY : Option Int
  levelCompleted : Bool
deriving DecidableEq

namespace MazeLevel

/-- The map literal of the constructor (1 = wall, 0 = path, 2 = start, 3 = end). -/
def builtinMap : List (List Int) :=
  [ [1,1,1,1,1,1,1,1,1,1,1,1,1,1,1,1,1,1,1,1,1,1,1,1,1],
    [1,2,0,0,1,0,0,0,1,0,0,0,0,0,1,0,0,0,1,0,0,0,0,3,1],
    [1,0,1,0,1,0,1,0,1,0,1,1,1,0,1,0,1,0,1,0,1,1,1,0,1],
    [1,0,1,0,0,0,1,0,0,0,0,0,1,0,0,0,1,0,1,0,0,0,1,0,1],
    [1,0,1,1,1,1,1,1,1,1,1,0,1,1,1,1,1,0,1,1,1,0,1,0,1],
    [1,0,0,0,0,0,0,0,0,0,1,0,0,0,0,0,1,0,0,0,1,0,1,0,1],
    [1,1,1,1,1,1,1,1,1,0,1,1,1,1,1,0,1,1,1,0,1,0,1,0,1],
    [1,0,0,0,0,0,0,0,1,0,0,0,0,0,1,0,0,0,1,0,1,0,1,0,1],
    [1,0,1,1,1,1,1,0,1,1,1,1,1,0,1,1,1,0,1,1,1,0,1,0,1],
    [1,0,1,0,0,0,1,0,0,0,0,0,1,0,0,0,1,0,0,0,0,0,1,0,1],
    [1,0,1,0,1,0,1,1,1,1,1,0,1,1,1,0,1,1,1,1,1,0,1,0,1],
    [1,0,0,0,1,0,0,0,1,0,0,0,1,0,0,0,1,0,0,0,1,0,0,0,1],
    [1,1,1,1,1,1,1,1,1,1,1,1,1,1,1,1,1,1,1,1,1,1,1,1,1] ]

/-- The subscript `mazeMap[gridY][gridX]` with `int` indices: a negative index
converts to a huge unsigned one, so it is out of range like one past the end. -/
def cellAt (mazeMap : List (List Int)) (gridY gridX : Int) : Option Int :=
  if 0 ≤ gridY ∧ 0 ≤ gridX then
    (mazeMap[gridY.toNat]?).bind (fun row => row[gridX.toNat]?)
  else none

/-- What the constructor's scan has written so far: the character and the end
cell fields. -/
structure ScanState where
  character : Character
  endX : Option Int
  endY : Option Int

/-- The body of the constructor's inner loop at row `i`, column `j`. -/
def scanCell (tileWidth tileHeight : Int) (i j : Nat) (cell : Int) (s : ScanState) :
    ScanState :=
  let px : Int := (j : Int) * tileWidth + Int.tdiv tileWidth 2
  let py : Int := (i : Int) * tileHeight + Int.tdiv tileHeight 2
  let s1 : ScanState :=
    if cell = 2 then { s with character := s.character.moveTo (px : ℚ) (py : ℚ) } else s
  if cell = 3 then { s1 with endX := some (j : Int), endY := some (i : Int) } else s1

/-- The constructor's inner loop over the columns of row `i`, from column `j`. -/
def scanRow (tileWidth tileHeight : Int) (i : Nat) : List Int → Nat → ScanState → ScanState
  | [], _, s => s
  | cell :: rest, j, s =>
      scanRow tileWidth tileHeight i rest (j + 1) (scanCell tileWidth tileHeight i j cell s)

/-- The constructor's outer loop over the rows, from row `i`. -/
def scanRows (tileWidth tileHeight : Int) : List (List Int) → Nat → ScanState → ScanState
  | [], _, s => s
  | row :: rest, i, s =>
      scanRows tileWidth tileHeight rest (i + 1) (scanRow tileWidth tileHeight i row 0 s)

/-- The constructor `MazeLevel(renderer, character, font)` run on a given map:
it returns the new level and the character it has modified. The tile sizes are
unsigned divisions by the map's column and row counts. -/
def createWith (mazeMap : List (List Int)) (character : Character) :
    Option (MazeLevel × Character) := do
  let row0 ← mazeMap[0]?
  if row0.length = 0 then none
  let tileWidth : Int := ((WINDOW_WIDTH.toNat / row0.length : Nat) : Int)
  let tileHeight : Int := ((WINDOW_HEIGHT.toNat / mazeMap.length : Nat) : Int)
  let c1 := (character.disableJump).setMovementSpeed 1800
  let s := scanRows tileWidth tileHeight mazeMap 0 { character := c1, endX := none, endY := none }
  pure ({ mazeMap := mazeMap, tileWidth := tileWidth, tileHeight := tileHeight,
          startX := none, startY := none, endX := s.endX, endY := s.endY,
          levelCompleted := false }, s.character)

/-- The constructor as written, with its built-in map. -/
def create (character : Character) : Option (MazeLevel × Character) :=
  createWith builtinMap character

/-- The position `moveTo` receives at a wall reset: computed in `int` from the
render-time start cache. -/
def resetPosition (m : MazeLevel) : Option (Int × Int) := do
  let sx ← m.startX
  let sy ← m.startY
  let hx ← intDiv m.tileWidth 2
  let hy ← intDiv m.tileHeight 2
  let px ← (intMul sx m.tileWidth).bind (fun t => intAdd t hx)
  let py ← (intMul sy m.tileHeight).bind (fun t => intAdd t hy)
  pure (px, py)

/-- The grid cell `(gridY, gridX)` that `update` derives from the character's
bounding box. -/
def gridCell (m : MazeLevel) (c : Character) : Option (Int × Int) := do
  let charRect ← c.getRect
  let charMidX ← (intDiv charRect.w 2).bind (fun t => intAdd charRect.x t)
  let charMidY ← (intDiv charRect.h 2).bind (fun t => intAdd charRect.y t)
  let gridX ← intDiv charMidX m.tileWidth
  let gridY ← intDiv charMidY m.tileHeight
  pure (gridY, gridX)

/-- The method `MazeLevel::update`, on the level and the character it points to. -/
def update (m : MazeLevel) (c : Character) (_deltaTime : ℚ) :
    Option (MazeLevel × Character) :=
  if m.levelCompleted then some (m, c)
  else do
    let (gridY, gridX) ← m.gridCell c
    let cell ← cellAt m.mazeMap gridY gridX
    let c1 ←
      if cell = 1 then do
        let (px, py) ← m.resetPosition
        pure (c.moveTo (px : ℚ) (py : ℚ))
      else pure c
    pure ({ m with levelCompleted := if cell = 3 then true else m.levelCompleted }, c1)

/-- What `render` has written so far to the start cache. -/
def renderCell (i j : Nat) (cell : Int) (s : Option Int × Option Int) :
    Option Int × Option Int :=
  if cell = 1 then s
  else if cell = 0 then s
  else if cell = 2 then (some (j : Int), some (i : Int))
  else s

def renderRow (i : Nat) : List Int → Nat → Option Int × Option Int → Option Int × Option Int
  | [], _, s => s
  | cell :: rest, j, s => renderRow i rest (j + 1) (renderCell i j cell s)

def renderRows : List (List Int) → Nat → Option Int × Option Int → Option Int × Option Int
  | [], _, s => s
  | row :: rest, i, s => renderRows rest (i + 1) (renderRow i row 0 s)

/-- The method `MazeLevel::render`: besides drawing, it assigns `startX` and
`startY` at every cell with code 2. -/
def render (m : MazeLevel) : MazeLevel :=
  let s := renderRows m.mazeMap 0 (m.startX, m.startY)
  { m with startX := s.1, startY := s.2 }

def isLevelCompleted (m : MazeLevel) : Bool := m.levelCompleted

/-- A level of the built-in map whose start cache `render` has set. -/
def Rendered (m : MazeLevel) : Prop :=
  m.mazeMap = builtinMap ∧ m.tileWidth = 32 ∧ m.tileHeight = 46 ∧
    m.startX = some 1 ∧ m.startY = some 1

/-- A level of the built-in map whose start cache is either still unassigned
or holds the start cell (1, 1). -/
def CacheUnsetOrStart (m : MazeLevel) : Prop :=
  m.mazeMap = builtinMap ∧ m.tileWidth = 32 ∧ m.tileHeight = 46 ∧
    ((m.startX = none ∧ m.startY = none) ∨ (m.startX = some 1 ∧ m.startY = some 1))

/-- The level that the constructor followed by one `render` produces. -/
def renderedLevel : MazeLevel :=
  { mazeMap := builtinMap, tileWidth := 32, tileHeight := 46,
    startX := some 1, startY := some 1, endX := some 23, endY := some 1,
    levelCompleted := false }

/-- A call made on a maze level and its character between two observations. -/
inductive MazeOp where
  | moveTo (newX newY : ℚ)
  | moveLeft (deltaTime : ℚ)
  | moveRight (deltaTime : ℚ)
  | moveUp (deltaTime : ℚ)
  | moveDown (deltaTime : ℚ)
  | update (deltaTime : ℚ)

/-- What a call does to the character when `update` is left out. -/
def MazeOp.onCharacter : MazeOp → Character → Character
  | MazeOp.moveTo newX newY, c => c.moveTo newX newY
  | MazeOp.moveLeft deltaTime, c => c.moveLeft deltaTime
  | MazeOp.moveRight deltaTime, c => c.moveRight deltaTime
  | MazeOp.moveUp deltaTime, c => c.moveUp deltaTime
  | MazeOp.moveDown deltaTime, c => c.moveDown deltaTime
  | MazeOp.update _, c => c

/-- One call on the level and its character. -/
def applyOp : MazeOp → MazeLevel × Character → Option (MazeLevel × Character)
  | MazeOp.update deltaTime, (m, c) => m.update c deltaTime
  | op, (m, c) => some (m, op.onCharacter c)

/-- A sequence of calls, in order. -/
def applyOps : List MazeOp → MazeLevel × Character → Option (MazeLevel × Character)
  | [], s => some s
  | op :: rest, s => (applyOp op s).bind (applyOps rest)

/-- The character position whose bounding box (32 × 56) has its center on the
center `(col * 32 + 16, row * 46 + 23)` of the cell at `row`, `col`. -/
def centeredAt (cell : Int × Int) : Int × Int :=
  (cell.2 * 32 + 16 - 16, cell.1 * 46 + 23 - 28)

/-- The call `moveTo` that centers the character on a cell. -/
def placeAt (cell : Int × Int) (c : Character) : Character :=
  c.moveTo ((centeredAt cell).1 : ℚ) ((centeredAt cell).2 : ℚ)

/-- The calls `moveTo` onto the center of a cell, then `update`. -/
def visit (deltaTime : ℚ) (cell : Int × Int) : List MazeOp :=
  [MazeOp.moveTo ((centeredAt cell).1 : ℚ) ((centeredAt cell).2 : ℚ), MazeOp.update deltaTime]

/-- The calls that visit the given cells in turn. -/
def walk (deltaTime : ℚ) : List (Int × Int) → List MazeOp
  | [] => []
  | cell :: rest => visit deltaTime cell ++ walk deltaTime rest

/-- Two cells that share an edge. -/
@[reducible] def adjacent4 (p q : Int × Int) : Prop :=
  (p.1 = q.1 ∧ (p.2 + 1 = q.2 ∨ q.2 + 1 = p.2)) ∨
  (p.2 = q.2 ∧ (p.1 + 1 = q.1 ∨ q.1 + 1 = p.1))

/-- A route of (row, column) cells through the built-in map, from the start
cell to the end cell. -/
def solutionPath : List (Int × Int) :=
  [(1, 1), (1, 2), (1, 3), (2, 3), (3, 3), (3, 4), (3, 5), (2, 5), (1, 5), (1, 6),
   (1, 7), (2, 7), (3, 7), (3, 8), (3, 9), (3, 10), (3, 11), (4, 11), (5, 11), (5, 12),
   (5, 13), (5, 14), (5, 15), (6, 15), (7, 15), (7, 16), (7, 17), (8, 17), (9, 17),
   (9, 18), (9, 19), (9, 20), (9, 21), (10, 21), (11, 21), (11, 22), (11, 23), (10, 23),
   (9, 23), (8, 23), (7, 23), (6, 23), (5, 23), (4, 23), (3, 23), (2, 23), (1, 23)]

end MazeLevel

/-! ## The game loop of `main` -/

inductive Keycode where
  | UP
  | ESCAPE
  | otherKey
deriving DecidableEq, Repr

inductive MouseButton where
  | LEFT
  | otherButton
deriving DecidableEq, Repr

/-- What the loop reads of an `SDL_Event`: its type and, for the two types it
looks into, the key or the button. -/
inductive Event where
  | QUIT
  | KEYDOWN (sym : Keycode)
  | MOUSEBUTTONDOWN (button : MouseButton)
  | otherEvent
deriving DecidableEq, Repr

/-- The four entries of `SDL_GetKeyboardState` the loop samples. -/
structure KeyboardState where
  up : Bool
  down : Bool
  left : Bool
  right : Bool
deriving DecidableEq, Repr

/-- The local variables of `main` that the loop mutates; `mazeLevel = none` is
the null pointer. -/
structure Game where
  gameState : GameState
  character : Character
  dog : Dog
  dialogSystem : DialogSystem
  mazeLevel : Option MazeLevel
  running : Bool
deriving DecidableEq

namespace Game

/-- The variables as `main` initialises them before the loop. -/
def initial : Game :=
  { gameState := GameState.INTRO,
    character := Character.create 350 GROUND_LEVEL,
    dog := Dog.create (F32.finite 100) (F32.finite GROUND_LEVEL),
    dialogSystem := DialogSystem.create,
    mazeLevel := none,
    running := true }

/-- The held-key movement at the end of the `INTRO` branch: right, then left. -/
def introMoves (keystate : KeyboardState) (deltaTime : ℚ) (g : Game) : Game :=
  let g3 : Game :=
    if keystate.right then { g with character := g.character.moveRight deltaTime } else g
  if keystate.left then { g3 with character := g3.character.moveLeft deltaTime } else g3

/-- The `INTRO` branch of the event dispatch. -/
def handleIntro (ev : Event) (keystate : KeyboardState) (deltaTime : ℚ) (g : Game) :
    Option Game := do
  let g1 : Game :=
    if ev = Event.KEYDOWN Keycode.UP then { g with character := g.character.startJump } else g
  let g2 ←
    if ev = Event.MOUSEBUTTONDOWN MouseButton.LEFT then
      let d := g1.dialogSystem.advanceDialog
      if d.isFinished then do
        let (m, c) ← MazeLevel.create g1.character
        pure { g1 with dialogSystem := d, gameState := GameState.MAZE,
                       mazeLevel := some m, character := c }
      else pure { g1 with dialogSystem := d }
    else pure g1
  pure (introMoves keystate deltaTime g2)

/-- The held-key movement of the `MAZE` branch: up, down, right, left, in the
order of the four `if` statements. -/
def mazeMoves (keystate : KeyboardState) (deltaTime : ℚ) (g : Game) : Game :=
  let g1 : Game :=
    if keystate.up then { g with character := g.character.moveUp deltaTime } else g
  let g2 : Game :=
    if keystate.down then { g1 with character := g1.character.moveDown deltaTime } else g1
  let g3 : Game :=
    if keystate.right then { g2 with character := g2.character.moveRight deltaTime } else g2
  if keystate.left then { g3 with character := g3.character.moveLeft deltaTime } else g3

/-- The `MAZE` branch of the event dispatch; `mazeLevel->isLevelCompleted()`
dereferences the pointer. -/
def handleMaze (keystate : KeyboardState) (deltaTime : ℚ) (g : Game) : Option Game := do
  let g4 : Game := mazeMoves keystate deltaTime g
  let m ← g4.mazeLevel
  if m.isLevelCompleted then
    pure { g4 with gameState := GameState.VICTORY, mazeLevel := none }
  else pure g4

/-- The `VICTORY` branch of the event dispatch. -/
def handleVictory (ev : Event) (g : Game) : Game :=
  if ev = Event.KEYDOWN Keycode.ESCAPE then { g with running := false } else g

/-- The body of the `SDL_PollEvent` loop for one event, with the keyboard state
sampled while it is handled. -/
def handleEvent (ev : Event) (keystate : KeyboardState) (deltaTime : ℚ) (g : Game) :
    Option Game :=
  if ev = Event.QUIT then some { g with running := false }
  else
    match g.gameState with
    | GameState.INTRO => handleIntro ev keystate deltaTime g
    | GameState.MAZE => handleMaze keystate deltaTime g
    | GameState.VICTORY => some (handleVictory ev g)

/-- The update-and-render part of one loop iteration. -/
def updateAndRender (deltaTime : ℚ) (g : Game) : Option Game :=
  match g.gameState with
  | GameState.INTRO =>
      let c := g.character.update deltaTime
      some { g with character := c,
                    dog := g.dog.update (F32.ofRat deltaTime) (F32.ofRat c.getX)
                      (F32.ofRat c.getY) }
  | GameState.MAZE => do
      let m ← g.mazeLevel
      let (m1, c1) ← m.update g.character deltaTime
      pure { g with mazeLevel := some m1.render, character := c1 }
  | GameState.VICTORY => some g

/-- The event queue drained in one iteration. -/
def handleEvents (deltaTime : ℚ) : List (Event × KeyboardState) → Game → Option Game
  | [], g => some g
  | (ev, keystate) :: rest, g =>
      (handleEvent ev keystate deltaTime g).bind (handleEvents deltaTime rest)

/-- The input of one loop iteration: the elapsed time and the queued events. -/
structure Frame where
  deltaTime : ℚ
  events : List (Event × KeyboardState)

/-- One iteration of `while (running)`. -/
def frame (f : Frame) (g : Game) : Option Game :=
  (handleEvents f.deltaTime f.events g).bind (updateAndRender f.deltaTime)

/-- The loop `while (running)` over the given frames: it stops at the first
iteration that finds `running` false. -/
def runLoop : List Frame → Game → Option Game
  | [], g => some g
  | f :: rest, g => if g.running then (frame f g).bind (runLoop rest) else some g

/-- What one step of the loop consumes: a polled event, with the keyboard
state sampled while it is handled and the frame's elapsed time, or the
update-and-render part of a frame. -/
inductive Input where
  | event (ev : Event) (keystate : KeyboardState) (deltaTime : ℚ)
  | update (deltaTime : ℚ)

/-- One step of the loop. -/
def step : Input → Game → Option Game
  | Input.event ev keystate deltaTime, g => handleEvent ev keystate deltaTime g
  | Input.update deltaTime, g => updateAndRender deltaTime g

/-- The states the loop can get to from `g`, step by step. -/
inductive Reaches (g : Game) : Game → Prop where
  | refl : Reaches g g
  | tail (inp : Input) (g1 g2 : Game) : Reaches g g1 → step inp g1 = some g2 → Reaches g g2

/-- No key held. -/
def noKeys : KeyboardState := { up := false, down := false, left := false, right := false }

/-- A left mouse click with no key held. -/
def click : Event × KeyboardState := (Event.MOUSEBUTTONDOWN MouseButton.LEFT, noKeys)

/-- An event of no interest, polled while the given keys are held. -/
def held (keystate : KeyboardState) : Event × KeyboardState := (Event.otherEvent, keystate)

/-- A run of two frames of 10 ms: three clicks end the dialog and create the
maze, one event with up and left held moves the character into the start cell,
39 events with right held carry it along row 1 into the end cell, and the
update of the frame completes the level; the event of the second frame finds
the level completed. -/
def winningRun : List Frame :=
  [ { deltaTime := 1 / 100,
      events := [click, click, click, held { noKeys with up := true, left := true }] ++
        List.replicate 39 (held { noKeys with right := true }) },
    { deltaTime := 1 / 100, events := [held noKeys] } ]

end Game

/-! # Verified properties -/

/-! ## Auxiliary facts -/

/-- Truncating division by a positive divisor brackets the dividend. -/
theorem tdiv_bracket (a b : Int) (hb : 0 < b) :
    (0 ≤ a → b * Int.tdiv a b ≤ a ∧ a < b * Int.tdiv a b + b) ∧
    (a < 0 → b * Int.tdiv a b - b < a ∧ a ≤ b * Int.tdiv a b) := by
  have key : ∀ c : Int, 0 ≤ c → b * Int.tdiv c b ≤ c ∧ c < b * Int.tdiv c b + b := by
    intro c hc
    have h1 := Int.tdiv_add_tmod c b
    have h2 := Int.tmod_nonneg b hc
    have h3 := Int.tmod_lt_of_pos c hb
    constructor <;> omega
  refine ⟨key a, fun ha => ?_⟩
  have h := key (-a) (by omega)
  rw [Int.neg_tdiv, mul_neg] at h
  constructor <;> omega

/-- A column index in range pins the horizontal center to the window. -/
theorem tdiv32_range (a : Int) (h0 : 0 ≤ Int.tdiv a 32) (h1 : Int.tdiv a 32 < 25) :
    -32 < a ∧ a < 800 := by
  have h := tdiv_bracket a 32 (by decide)
  by_cases ha : 0 ≤ a
  · have := h.1 ha
    constructor <;> omega
  · have := h.2 (by omega)
    constructor <;> omega

/-- A row index in range pins the vertical center to the window. -/
theorem tdiv46_range (a : Int) (h0 : 0 ≤ Int.tdiv a 46) (h1 : Int.tdiv a 46 < 13) :
    -46 < a ∧ a < 598 := by
  have h := tdiv_bracket a 46 (by decide)
  by_cases ha : 0 ≤ a
  · have := h.1 ha
    constructor <;> omega
  · have := h.2 (by omega)
    constructor <;> omega

theorem checkedInt_of_range (z : Int) (h0 : INT_MIN ≤ z) (h1 : z ≤ INT_MAX) :
    checkedInt z = some z := by
  simp [checkedInt, h0, h1]

namespace MazeLevel

/-- The built-in map has 13 rows of 25 columns. -/
theorem builtinMap_dims :
    builtinMap.length = 13 ∧ ∀ row ∈ builtinMap, row.length = 25 := by
  decide

/-- A successful subscript of the built-in map has both indices in range. -/
theorem cellAt_builtin_range (gridY gridX v : Int)
    (h : cellAt builtinMap gridY gridX = some v) :
    0 ≤ gridY ∧ gridY < 13 ∧ 0 ≤ gridX ∧ gridX < 25 := by
  unfold cellAt at h
  split at h
  · rename_i hnn
    obtain ⟨hy, hx⟩ := hnn
    rcases Option.bind_eq_some.mp h with ⟨row, hrow, hv⟩
    have hlen := List.getElem?_eq_some.mp hrow
    obtain ⟨hi, hrow_eq⟩ := hlen
    have hmem : row ∈ builtinMap := hrow_eq ▸ List.getElem_mem hi
    have hrl := builtinMap_dims.2 row hmem
    have hj := (List.getElem?_eq_some.mp hv).1
    have h13 := builtinMap_dims.1
    refine ⟨hy, ?_, hx, ?_⟩ <;> omega
  · exact absurd h (by simp)


set_option maxRecDepth 8000 in
theorem create_fst (c : Character) :
    (create c).map (fun p => p.1) =
      some { renderedLevel with startX := none, startY := none } := by
  simp [create, createWith, builtinMap, scanRows, scanRow, scanCell, renderedLevel,
    WINDOW_WIDTH, WINDOW_HEIGHT]

set_option maxRecDepth 8000 in
theorem create_render (c : Character) :
    (create c).map (fun p => p.1.render) = some renderedLevel := by
  simp [create, createWith, builtinMap, scanRows, scanRow, scanCell, renderedLevel,
    WINDOW_WIDTH, WINDOW_HEIGHT, render, renderRows, renderRow, renderCell]

theorem renderedLevel_rendered : Rendered renderedLevel := by
  simp [Rendered, renderedLevel]

set_option maxRecDepth 8000 in
theorem render_rendered (m : MazeLevel) (h : Rendered m) : Rendered m.render := by
  obtain ⟨h1, h2, h3, h4, h5⟩ := h
  simp [Rendered, render, h1, h2, h3, h4, h5]
  constructor <;> rfl

theorem resetPosition_rendered (m : MazeLevel) (h : Rendered m) :
    m.resetPosition = some (48, 69) := by
  obtain ⟨_, h2, h3, h4, h5⟩ := h
  simp [resetPosition, h2, h3, h4, h5]
  rfl

/-- The cell that `update` looks up, from the truncated coordinates. -/
theorem gridCell_eq (m : MazeLevel) (c : Character) (rx ry : Int)
    (hw : m.tileWidth = 32) (hh : m.tileHeight = 46)
    (hx : floatToInt c.x = some rx) (hy : floatToInt c.y = some ry)
    (hcol : 0 ≤ Int.tdiv (rx + 16) 32 ∧ Int.tdiv (rx + 16) 32 < 25)
    (hrow : 0 ≤ Int.tdiv (ry + 28) 46 ∧ Int.tdiv (ry + 28) 46 < 13) :
    m.gridCell c = some (Int.tdiv (ry + 28) 46, Int.tdiv (rx + 16) 32) := by
  have hxr := tdiv32_range (rx + 16) hcol.1 hcol.2
  have hyr := tdiv46_range (ry + 28) hrow.1 hrow.2
  have e1 : intDiv 32 2 = some 16 := by rfl
  have e2 : intDiv 56 2 = some 28 := by rfl
  have e3 : checkedInt (rx + 16) = some (rx + 16) :=
    checkedInt_of_range _ (by unfold INT_MIN; omega) (by unfold INT_MAX; omega)
  have e4 : checkedInt (ry + 28) = some (ry + 28) :=
    checkedInt_of_range _ (by unfold INT_MIN; omega) (by unfold INT_MAX; omega)
  have e5 : intDiv (rx + 16) 32 = some (Int.tdiv (rx + 16) 32) := by
    unfold intDiv
    rw [if_neg (by decide)]
    exact checkedInt_of_range _ (by unfold INT_MIN; omega) (by unfold INT_MAX; omega)
  have e6 : intDiv (ry + 28) 46 = some (Int.tdiv (ry + 28) 46) := by
    unfold intDiv
    rw [if_neg (by decide)]
    exact checkedInt_of_range _ (by unfold INT_MIN; omega) (by unfold INT_MAX; omega)
  simp [gridCell, Character.getRect, hx, hy, hw, hh, Character.characterWidth,
    Character.characterHeight, e1, e2, intAdd, e3, e4, e5, e6]

/-- The effect of `update` once the looked-up cell is known. -/
theorem update_of_cell (m : MazeLevel) (c : Character) (dt : ℚ) (gridY gridX v : Int)
    (hnc : m.levelCompleted = false) (hg : m.gridCell c = some (gridY, gridX))
    (hv : cellAt m.mazeMap gridY gridX = some v) :
    m.update c dt =
      if v = 1 then
        (m.resetPosition).map (fun p => (m, c.moveTo (p.1 : ℚ) (p.2 : ℚ)))
      else some ({ m with levelCompleted := decide (v = 3) }, c) := by
  unfold update
  by_cases h1 : v = 1
  · subst h1
    cases hr : m.resetPosition <;> simp [hr, hnc, hg, hv]
    cases m
    simp_all
  · by_cases h3 : v = 3
    · simp [h1, h3, hnc, hg, hv]
    · simp [h1, h3, hnc, hg, hv]

/-- C1. Wall reset of `MazeLevel::update`: on a not-yet-completed level of the
built-in map whose start cache `render` has set (`startX = 1`, `startY = 1`),
when the character's bounding-box center `(int(x) + 16, int(y) + 28)`, divided
by the tile size `32 × 46`, is a wall cell, `update` returns the same level,
not completed, and the character with `x = 48` and `y = 69` and every other
field as before, `(48, 69)` being the cached start-cell center
`(startX * 32 + 32 / 2, startY * 46 + 46 / 2)`; when the center is over a path
or the start cell, `update` changes nothing. -/
theorem update_wall_reset (m : MazeLevel) (c : Character) (dt : ℚ) (rx ry : Int)
    (hm : Rendered m) (hnc : m.levelCompleted = false)
    (hx : floatToInt c.x = some rx) (hy : floatToInt c.y = some ry) :
    (cellAt builtinMap (Int.tdiv (ry + 28) 46) (Int.tdiv (rx + 16) 32) = some 1 →
      m.update c dt = some (m, { c with x := 48, y := 69 }) ∧
      (m.update c dt).map (fun p => (p.2.x, p.2.y, p.1.isLevelCompleted)) =
        some (48, 69, false)) ∧
    (m.resetPosition = some (48, 69) ∧
      ((1 : Int) * 32 + Int.tdiv 32 2, (1 : Int) * 46 + Int.tdiv 46 2) = (48, 69)) ∧
    (cellAt builtinMap (Int.tdiv (ry + 28) 46) (Int.tdiv (rx + 16) 32) = some 0 ∨
      cellAt builtinMap (Int.tdiv (ry + 28) 46) (Int.tdiv (rx + 16) 32) = some 2 →
      m.update c dt = some (m, c)) := by
  have hmap := hm.1
  have key : ∀ v : Int,
      cellAt builtinMap (Int.tdiv (ry + 28) 46) (Int.tdiv (rx + 16) 32) = some v →
      m.update c dt =
        if v = 1 then
          (m.resetPosition).map (fun p => (m, c.moveTo (p.1 : ℚ) (p.2 : ℚ)))
        else some ({ m with levelCompleted := decide (v = 3) }, c) := by
    intro v hv
    have hr := cellAt_builtin_range _ _ _ hv
    have hg := gridCell_eq m c rx ry hm.2.1 hm.2.2.1 hx hy ⟨hr.2.2.1, hr.2.2.2⟩ ⟨hr.1, hr.2.1⟩
    exact update_of_cell m c dt _ _ v hnc hg (by rw [hmap]; exact hv)
  refine ⟨fun h => ?_, ⟨resetPosition_rendered m hm, by decide⟩, fun h => ?_⟩
  · have hu : m.update c dt = some (m, { c with x := 48, y := 69 }) := by
      rw [key 1 h, resetPosition_rendered m hm]
      simp [Character.moveTo]
    refine ⟨hu, ?_⟩
    rw [hu]
    simp [isLevelCompleted, hnc]
  · rcases h with h | h
    · rw [key 0 h]
      simp [← hnc]
    · rw [key 2 h]
      simp [← hnc]

theorem update_wall_reset_witness :
    (Rendered renderedLevel ∧ renderedLevel.levelCompleted = false) ∧
    (floatToInt (Character.create 0 0).x = some 0 ∧
      floatToInt (Character.create 0 0).y = some 0 ∧
      cellAt builtinMap (Int.tdiv (0 + 28) 46) (Int.tdiv (0 + 16) 32) = some 1 ∧
      renderedLevel.update (Character.create 0 0) 0 =
        some (renderedLevel, { Character.create 0 0 with x := 48, y := 69 }) ∧
      (renderedLevel.update (Character.create 0 0) 0).map
          (fun p => (p.2.x, p.2.y, p.1.isLevelCompleted)) = some (48, 69, false)) ∧
    (floatToInt (Character.create 40 50).x = some 40 ∧
      floatToInt (Character.create 40 50).y = some 50 ∧
      cellAt builtinMap (Int.tdiv (50 + 28) 46) (Int.tdiv (40 + 16) 32) = some 2 ∧
      renderedLevel.update (Character.create 40 50) 0 =
        some (renderedLevel, Character.create 40 50)) :=
  ⟨⟨renderedLevel_rendered, rfl⟩,
   ⟨by simp [floatToInt, checkedInt, Character.create, INT_MIN, INT_MAX],
    by simp [floatToInt, checkedInt, Character.create, INT_MIN, INT_MAX],
    by decide,
    ((update_wall_reset renderedLevel (Character.create 0 0) 0 0 0 renderedLevel_rendered rfl
      (by simp [floatToInt, checkedInt, Character.create, INT_MIN, INT_MAX])
      (by simp [floatToInt, checkedInt, Character.create, INT_MIN, INT_MAX])).1 (by decide)).1,
    ((update_wall_reset renderedLevel (Character.create 0 0) 0 0 0 renderedLevel_rendered rfl
      (by simp [floatToInt, checkedInt, Character.create, INT_MIN, INT_MAX])
      (by simp [floatToInt, checkedInt, Character.create, INT_MIN, INT_MAX])).1 (by decide)).2⟩,
   ⟨by simp [floatToInt, checkedInt, Character.create, INT_MIN, INT_MAX],
    by simp [floatToInt, checkedInt, Character.create, INT_MIN, INT_MAX],
    by decide,
    (update_wall_reset renderedLevel (Character.create 40 50) 0 40 50 renderedLevel_rendered rfl
      (by simp [floatToInt, checkedInt, Character.create, INT_MIN, INT_MAX])
      (by simp [floatToInt, checkedInt, Character.create, INT_MIN, INT_MAX])).2.2
      (Or.inr (by decide))⟩⟩

/-- Once completed, `update` returns at once. -/
theorem update_completed (m : MazeLevel) (c : Character) (dt : ℚ)
    (h : m.levelCompleted = true) : m.update c dt = some (m, c) := by
  simp [update, h]

/-- On a completed level every call leaves the level alone and acts on the
character as the moves alone do. -/
theorem applyOps_completed (ops : List MazeOp) (m : MazeLevel) (c : Character)
    (h : m.levelCompleted = true) :
    applyOps ops (m, c) = some (m, ops.foldl (fun ch op => op.onCharacter ch) c) := by
  induction ops generalizing c with
  | nil => rfl
  | cons op rest ih =>
    cases op <;> simp [applyOps, applyOp, MazeOp.onCharacter, update_completed, h, ih]

/-- C2. Completion is a one-way flag: with the bounding-box center
`(int(x) + 16, int(y) + 28)` in the end cell (row 1, column 23, code 3),
`update` sets `levelCompleted` and does not move the character; after that,
whatever moves and updates follow, the level is unchanged (so still completed),
the character is where the moves alone put it, and a further `update` changes
neither. -/
theorem completion_one_way (m : MazeLevel) (c : Character) (dt : ℚ) (rx ry : Int)
    (hmap : m.mazeMap = builtinMap) (hw : m.tileWidth = 32) (hh : m.tileHeight = 46)
    (hnc : m.levelCompleted = false)
    (hx : floatToInt c.x = some rx) (hy : floatToInt c.y = some ry)
    (hrow : Int.tdiv (ry + 28) 46 = 1) (hcol : Int.tdiv (rx + 16) 32 = 23) :
    cellAt builtinMap 1 23 = some 3 ∧
    m.update c dt = some ({ m with levelCompleted := true }, c) ∧
    ∀ ops : List MazeOp, ∃ c1 : Character,
      applyOps ops ({ m with levelCompleted := true }, c) =
        some ({ m with levelCompleted := true }, c1) ∧
      c1 = ops.foldl (fun ch op => op.onCharacter ch) c ∧
      ({ m with levelCompleted := true } : MazeLevel).isLevelCompleted = true ∧
      ∀ dt1 : ℚ, ({ m with levelCompleted := true } : MazeLevel).update c1 dt1 =
        some ({ m with levelCompleted := true }, c1) := by
  have hcell : cellAt builtinMap 1 23 = some 3 := by decide
  have hg := gridCell_eq m c rx ry hw hh hx hy (by omega) (by omega)
  rw [hrow, hcol] at hg
  refine ⟨hcell, ?_, fun ops => ⟨_, applyOps_completed ops _ c rfl, rfl, rfl, fun dt1 =>
    update_completed _ _ dt1 rfl⟩⟩
  rw [update_of_cell m c dt 1 23 3 hnc hg (by rw [hmap]; exact hcell)]
  simp

theorem completion_one_way_witness :
    floatToInt (Character.create 736 41).x = some 736 ∧
    floatToInt (Character.create 736 41).y = some 41 ∧
    Int.tdiv (41 + 28) 46 = 1 ∧ Int.tdiv (736 + 16) 32 = 23 ∧
    renderedLevel.update (Character.create 736 41) 0 =
      some ({ renderedLevel with levelCompleted := true }, Character.create 736 41) :=
  ⟨by simp [floatToInt, checkedInt, Character.create, INT_MIN, INT_MAX],
   by simp [floatToInt, checkedInt, Character.create, INT_MIN, INT_MAX],
   by decide, by decide,
   (completion_one_way renderedLevel (Character.create 736 41) 0 736 41 rfl rfl rfl rfl
     (by simp [floatToInt, checkedInt, Character.create, INT_MIN, INT_MAX])
     (by simp [floatToInt, checkedInt, Character.create, INT_MIN, INT_MAX])
     (by decide) (by decide)).2.1⟩

theorem floatToInt_intCast (z : Int) (h0 : INT_MIN ≤ z) (h1 : z ≤ INT_MAX) :
    floatToInt (z : ℚ) = some z := by
  unfold floatToInt
  have : (if (0 : ℚ) ≤ (z : ℚ) then ⌊(z : ℚ)⌋ else ⌈(z : ℚ)⌉) = z := by
    split <;> simp
  rw [this]
  exact checkedInt_of_range z h0 h1

theorem applyOps_append (xs ys : List MazeOp) (s : MazeLevel × Character) :
    applyOps (xs ++ ys) s = (applyOps xs s).bind (applyOps ys) := by
  induction xs generalizing s with
  | nil => simp [applyOps]
  | cons op rest ih =>
    simp only [List.cons_append, applyOps]
    cases h : applyOp op s with
    | none => simp
    | some s1 => simp [ih]

theorem tdiv_of_bracket (a b q : Int) (hb : 0 < b) (h0 : 0 ≤ a) (h1 : b * q ≤ a)
    (h2 : a < b * q + b) : Int.tdiv a b = q := by
  have h := (tdiv_bracket a b hb).1 h0
  have e1 : b * (Int.tdiv a b - q) < b := by
    have : b * (Int.tdiv a b - q) = b * Int.tdiv a b - b * q := by ring
    omega
  have e2 : -b < b * (Int.tdiv a b - q) := by
    have : b * (Int.tdiv a b - q) = b * Int.tdiv a b - b * q := by ring
    omega
  have e3 : Int.tdiv a b - q < 1 := by
    by_contra hc
    have : b * 1 ≤ b * (Int.tdiv a b - q) :=
      Int.mul_le_mul_of_nonneg_left (by omega) (le_of_lt hb)
    omega
  have e4 : -1 < Int.tdiv a b - q := by
    by_contra hc
    have : b * (Int.tdiv a b - q) ≤ b * (-1) :=
      Int.mul_le_mul_of_nonneg_left (by omega) (le_of_lt hb)
    omega
  omega

/-- Centering on a cell of the grid, then `update`: the outcome by cell code. -/
theorem visit_cell (m : MazeLevel) (c : Character) (dt : ℚ) (cell : Int × Int) (v : Int)
    (hm : Rendered m) (hnc : m.levelCompleted = false)
    (hv : cellAt builtinMap cell.1 cell.2 = some v) :
    applyOps (visit dt cell) (m, c) =
      some (if v = 1 then (m, c.moveTo 48 69)
            else ({ m with levelCompleted := decide (v = 3) }, placeAt cell c)) := by
  obtain ⟨row, col⟩ := cell
  have hr := cellAt_builtin_range row col v hv
  simp only at hr hv
  have hx : floatToInt (placeAt (row, col) c).x = some (col * 32 + 16 - 16) := by
    show floatToInt ((col * 32 + 16 - 16 : Int) : ℚ) = _
    exact floatToInt_intCast _ (by unfold INT_MIN; omega) (by unfold INT_MAX; omega)
  have hy : floatToInt (placeAt (row, col) c).y = some (row * 46 + 23 - 28) := by
    show floatToInt ((row * 46 + 23 - 28 : Int) : ℚ) = _
    exact floatToInt_intCast _ (by unfold INT_MIN; omega) (by unfold INT_MAX; omega)
  have hcol : Int.tdiv (col * 32 + 16 - 16 + 16) 32 = col :=
    tdiv_of_bracket _ 32 col (by decide) (by omega) (by omega) (by omega)
  have hrow : Int.tdiv (row * 46 + 23 - 28 + 28) 46 = row :=
    tdiv_of_bracket _ 46 row (by decide) (by omega) (by omega) (by omega)
  have hg := gridCell_eq m (placeAt (row, col) c) _ _ hm.2.1 hm.2.2.1 hx hy
    (by rw [hcol]; omega) (by rw [hrow]; omega)
  rw [hrow, hcol] at hg
  have hu := update_of_cell m (placeAt (row, col) c) dt row col v hnc hg
    (by rw [hm.1]; exact hv)
  have hstep : applyOps (visit dt (row, col)) (m, c) = m.update (placeAt (row, col) c) dt := by
    simp [visit, applyOps, applyOp, MazeOp.onCharacter, placeAt]
  rw [hstep, hu, resetPosition_rendered m hm]
  by_cases h1 : v = 1
  · simp [h1, placeAt, Character.moveTo]
  · simp [h1]

/-- The cell codes along the route: start, then paths, then the end cell. -/
theorem solutionPath_codes :
    ∀ k : Nat, k < 47 → ∀ cell, solutionPath[k]? = some cell →
      cellAt builtinMap cell.1 cell.2 = some (if k = 46 then 3 else if k = 0 then 2 else 0) := by
  decide

theorem walk_append (dt : ℚ) (xs ys : List (Int × Int)) :
    walk dt (xs ++ ys) = walk dt xs ++ walk dt ys := by
  induction xs with
  | nil => simp [walk]
  | cons cell rest ih => simp [walk, ih]

theorem walk_singleton (dt : ℚ) (cell : Int × Int) : walk dt [cell] = visit dt cell := by
  simp [walk]

theorem with_completed_false (m : MazeLevel) (hnc : m.levelCompleted = false) :
    ({ m with levelCompleted := false } : MazeLevel) = m := by
  cases m
  simp_all

theorem placeAt_placeAt (p q : Int × Int) (c : Character) :
    placeAt p (placeAt q c) = placeAt p c := by
  simp [placeAt, Character.moveTo]

theorem moveTo_placeAt (q : Int × Int) (c : Character) (a b : ℚ) :
    (placeAt q c).moveTo a b = c.moveTo a b := by
  simp [placeAt, Character.moveTo]

/-- The state after visiting the first `k + 1` cells of the route. -/
theorem walk_upTo (m : MazeLevel) (c : Character) (dt : ℚ)
    (hm : Rendered m) (hnc : m.levelCompleted = false) :
    ∀ k : Nat, ∀ cell, solutionPath[k]? = some cell →
      applyOps (walk dt (solutionPath.take (k + 1))) (m, c) =
        some ({ m with levelCompleted := decide (k = 46) }, placeAt cell c) := by
  intro k
  induction k with
  | zero =>
    intro cell hcell
    have hcode := solutionPath_codes 0 (by decide) cell hcell
    have htake : solutionPath.take (0 + 1) = [cell] := by
      rw [List.take_succ, hcell]
      simp
    rw [htake, walk_singleton, visit_cell m c dt cell _ hm hnc hcode]
    simp
  | succ k ih =>
    intro cell hcell
    have hlen : solutionPath.length = 47 := by decide
    have hk : k + 1 < 47 := by
      have := (List.getElem?_eq_some.mp hcell).1
      omega
    obtain ⟨prev, hprev⟩ : ∃ prev, solutionPath[k]? = some prev :=
      ⟨solutionPath[k], List.getElem?_eq_getElem (by omega)⟩
    have hcode := solutionPath_codes (k + 1) hk cell hcell
    have htake : solutionPath.take (k + 1 + 1) = solutionPath.take (k + 1) ++ [cell] := by
      rw [List.take_succ, hcell]
      simp
    have hk46 : decide (k = 46) = false := by
      simp
      omega
    rw [htake, walk_append, applyOps_append, ih prev hprev, hk46,
      with_completed_false m hnc, walk_singleton]
    simp only [Option.some_bind]
    rw [visit_cell m (placeAt prev c) dt cell _ hm hnc hcode, placeAt_placeAt]
    by_cases h46 : k + 1 = 46
    · simp [h46]
    · simp [h46]

/-- C3. The built-in maze is solvable: `solutionPath` is a chain of 4-adjacent
cells from the start cell (1, 1) to the end cell (1, 23) without a wall cell;
centering the character on its cells in turn, each `moveTo` followed by
`update`, leaves the character on the cell just visited every time (no reset),
with the level completed exactly at the last cell, the end cell; and centering
on any wall cell instead, at the outset or after any part of the route before
its end, puts the character at `(48, 69)` and leaves the level not completed. -/
theorem maze_solvable (m : MazeLevel) (c : Character) (dt : ℚ)
    (hm : Rendered m) (hnc : m.levelCompleted = false) :
    solutionPath.head? = some (1, 1) ∧ solutionPath.getLast? = some (1, 23) ∧
    solutionPath.length = 47 ∧
    List.Chain' adjacent4 solutionPath ∧
    (∀ cell ∈ solutionPath, ∃ v, cellAt builtinMap cell.1 cell.2 = some v ∧ v ≠ 1) ∧
    (∀ k : Nat, ∀ cell, solutionPath[k]? = some cell →
      (placeAt cell c).getRect =
        some { x := cell.2 * 32 + 16 - 16, y := cell.1 * 46 + 23 - 28, w := 32, h := 56 } ∧
      applyOps (walk dt (solutionPath.take (k + 1))) (m, c) =
        some ({ m with levelCompleted := decide (k = 46) }, placeAt cell c)) ∧
    (∀ wall : Int × Int, cellAt builtinMap wall.1 wall.2 = some 1 →
      ∀ k : Nat, k ≤ 46 →
        applyOps (walk dt (solutionPath.take k ++ [wall])) (m, c) =
          some (m, c.moveTo 48 69)) := by
  refine ⟨by decide, by decide, by decide, by simp [solutionPath, adjacent4], by decide, ?_, ?_⟩
  · intro k cell hcell
    refine ⟨?_, walk_upTo m c dt hm hnc k cell hcell⟩
    have hk := (List.getElem?_eq_some.mp hcell).1
    have hlen : solutionPath.length = 47 := by decide
    have hcode := solutionPath_codes k (by omega) cell hcell
    have hr := cellAt_builtin_range _ _ _ hcode
    have hx : floatToInt (placeAt cell c).x = some (cell.2 * 32 + 16 - 16) := by
      show floatToInt ((cell.2 * 32 + 16 - 16 : Int) : ℚ) = _
      exact floatToInt_intCast _ (by unfold INT_MIN; omega) (by unfold INT_MAX; omega)
    have hy : floatToInt (placeAt cell c).y = some (cell.1 * 46 + 23 - 28) := by
      show floatToInt ((cell.1 * 46 + 23 - 28 : Int) : ℚ) = _
      exact floatToInt_intCast _ (by unfold INT_MIN; omega) (by unfold INT_MAX; omega)
    simp [Character.getRect, hx, hy, Character.characterWidth, Character.characterHeight]
  · intro wall hwall k hk
    rw [walk_append, applyOps_append, walk_singleton]
    cases k with
    | zero =>
      rw [show applyOps (walk dt (solutionPath.take 0)) (m, c) = some (m, c) from rfl]
      simp only [Option.some_bind]
      rw [visit_cell m c dt wall 1 hm hnc hwall]
      simp
    | succ j =>
      have hlen : solutionPath.length = 47 := by decide
      obtain ⟨prev, hprev⟩ : ∃ prev, solutionPath[j]? = some prev :=
        ⟨solutionPath[j], List.getElem?_eq_getElem (by omega)⟩
      have hj46 : decide (j = 46) = false := by
        simp
        omega
      rw [walk_upTo m c dt hm hnc j prev hprev, hj46, with_completed_false m hnc]
      simp only [Option.some_bind]
      rw [visit_cell m (placeAt prev c) dt wall 1 hm hnc hwall]
      simp [moveTo_placeAt]

theorem maze_solvable_witness :
    Rendered renderedLevel ∧ renderedLevel.levelCompleted = false ∧
    applyOps (walk 0 (solutionPath.take (46 + 1))) (renderedLevel, Character.create 48 69) =
      some ({ renderedLevel with levelCompleted := decide (46 = 46) },
        placeAt (1, 23) (Character.create 48 69)) :=
  ⟨renderedLevel_rendered, rfl,
   ((maze_solvable renderedLevel (Character.create 48 69) 0 renderedLevel_rendered rfl).2.2.2.2.2.1
      46 (1, 23) (by decide)).2⟩

set_option maxRecDepth 8000 in
/-- The constructor's result, in closed form. -/
theorem create_eq (c : Character) :
    create c =
      some ({ renderedLevel with startX := none, startY := none },
            { c with canJump := false, movementSpeed := 1800, x := 48, y := 69 }) := by
  simp [create, createWith, builtinMap, scanRows, scanRow, scanCell, renderedLevel,
    WINDOW_WIDTH, WINDOW_HEIGHT, Character.disableJump, Character.setMovementSpeed,
    Character.moveTo]
  norm_num [Int.tdiv]

/-- C4 (what the code does). The constructor puts the character's position, the
top-left corner of its bounding box, at the start cell's center `(48, 69)`; the
bounding-box center is then `(64, 97)`, which `update` maps to row 2, column 2,
a wall cell and not the start cell. An `update` right after construction takes
the wall-reset branch: before any `render` it reads the unassigned start cache
(undefined), and once `render` has run it re-places the character at
`(48, 69)`. -/
theorem create_center_on_wall (c : Character) (dt : ℚ) :
    ∃ m c1, create c = some (m, c1) ∧ c1.x = 48 ∧ c1.y = 69 ∧
      c1.getRect = some { x := 48, y := 69, w := 32, h := 56 } ∧
      m.gridCell c1 = some (2, 2) ∧ cellAt m.mazeMap 2 2 = some 1 ∧
      cellAt m.mazeMap 1 1 = some 2 ∧
      m.update c1 dt = none ∧
      m.render.update c1 dt = some (m.render, c1.moveTo 48 69) := by
  refine ⟨_, _, create_eq c, rfl, rfl, ?_⟩
  have hx : floatToInt (48 : ℚ) = some 48 := by
    simp [floatToInt, checkedInt, INT_MIN, INT_MAX]
  have hy : floatToInt (69 : ℚ) = some 69 := by
    simp [floatToInt, checkedInt, INT_MIN, INT_MAX]
  have hrect : ({ c with canJump := false, movementSpeed := 1800, x := 48, y := 69 } :
      Character).getRect = some { x := 48, y := 69, w := 32, h := 56 } := by
    simp [Character.getRect, hx, hy, Character.characterWidth, Character.characterHeight]
  have hg : ∀ m : MazeLevel, m.tileWidth = 32 → m.tileHeight = 46 →
      m.gridCell { c with canJump := false, movementSpeed := 1800, x := 48, y := 69 } =
        some (2, 2) := by
    intro m hw hh
    have := gridCell_eq m { c with canJump := false, movementSpeed := 1800, x := 48, y := 69 }
      48 69 hw hh hx hy (by decide) (by decide)
    simpa using this
  refine ⟨hrect, hg _ rfl rfl, by decide, by decide, ?_, ?_⟩
  · rw [update_of_cell _ _ dt 2 2 1 rfl (hg _ rfl rfl) (by decide)]
    simp [resetPosition, renderedLevel]
  · have hr : Rendered (render { renderedLevel with startX := none, startY := none }) := by
      have h := create_render c
      rw [create_eq c] at h
      simp only [Option.map_some', Option.some.injEq] at h
      rw [h]
      exact renderedLevel_rendered
    rw [update_of_cell _ _ dt 2 2 1 (by rfl) (hg _ hr.2.1 hr.2.2.1) (by rw [hr.1]; decide),
      resetPosition_rendered _ hr]
    simp

/-- Inside the 13 × 25 index range the built-in map has a cell. -/
theorem cellAt_builtin_isSome (gridY gridX : Int)
    (hy : 0 ≤ gridY ∧ gridY < 13) (hx : 0 ≤ gridX ∧ gridX < 25) :
    ∃ v, cellAt builtinMap gridY gridX = some v := by
  have hlen := builtinMap_dims.1
  have hi : gridY.toNat < builtinMap.length := by omega
  have hrow : builtinMap[gridY.toNat]? = some builtinMap[gridY.toNat] :=
    List.getElem?_eq_getElem hi
  have hrl := builtinMap_dims.2 _ (List.getElem_mem hi)
  have hj : gridX.toNat < (builtinMap[gridY.toNat]).length := by omega
  refine ⟨(builtinMap[gridY.toNat])[gridX.toNat], ?_⟩
  unfold cellAt
  rw [if_pos ⟨hy.1, hx.1⟩, hrow]
  simp only [Option.some_bind]
  exact List.getElem?_eq_getElem hj

/-- Truncation of a non-negative coordinate below an integer bound. -/
theorem floatToInt_of_bounds (q : ℚ) (b : Int) (h0 : 0 ≤ q) (h1 : q ≤ (b : ℚ))
    (hb : b ≤ INT_MAX) :
    ∃ r : Int, floatToInt q = some r ∧ 0 ≤ r ∧ r ≤ b ∧ r = ⌊q⌋ := by
  have hr0 : 0 ≤ ⌊q⌋ := Int.floor_nonneg.mpr h0
  have hr1 : ⌊q⌋ ≤ b := by
    have : ((⌊q⌋ : Int) : ℚ) ≤ (b : ℚ) := le_trans (Int.floor_le q) h1
    exact_mod_cast this
  refine ⟨⌊q⌋, ?_, hr0, hr1, rfl⟩
  unfold floatToInt
  rw [if_pos h0]
  exact checkedInt_of_range _ (by unfold INT_MIN; omega) (by omega)

/-- C5. Grid lookups of `update` are in bounds on the clamped range: for a
character with `0 ≤ x ≤ WINDOW_WIDTH - 32` and `0 ≤ y ≤ WINDOW_HEIGHT - 56`, on
a level with the built-in map and tile size `32 × 46`, the indices
`gridX = (int(x) + 16) / 32` and `gridY = (int(y) + 28) / 46` are defined, lie
in `0 ≤ gridX < 25` and `0 ≤ gridY < 13`, and `mazeMap[gridY][gridX]` is a cell
of the map; the reset position `(48, 69)` lies in that range. -/
theorem update_lookup_in_bounds (m : MazeLevel) (c : Character)
    (hmap : m.mazeMap = builtinMap) (hw : m.tileWidth = 32) (hh : m.tileHeight = 46)
    (hx : 0 ≤ c.x ∧ c.x ≤ ((WINDOW_WIDTH - 32 : Int) : ℚ))
    (hy : 0 ≤ c.y ∧ c.y ≤ ((WINDOW_HEIGHT - 56 : Int) : ℚ)) :
    (∃ rx ry gridX gridY v : Int,
      floatToInt c.x = some rx ∧ floatToInt c.y = some ry ∧
      gridX = Int.tdiv (rx + 16) 32 ∧ gridY = Int.tdiv (ry + 28) 46 ∧
      m.gridCell c = some (gridY, gridX) ∧
      0 ≤ gridX ∧ gridX < 25 ∧ 0 ≤ gridY ∧ gridY < 13 ∧
      cellAt m.mazeMap gridY gridX = some v) ∧
    (0 ≤ (48 : ℚ) ∧ (48 : ℚ) ≤ ((WINDOW_WIDTH - 32 : Int) : ℚ)) ∧
    (0 ≤ (69 : ℚ) ∧ (69 : ℚ) ≤ ((WINDOW_HEIGHT - 56 : Int) : ℚ)) := by
  refine ⟨?_, by norm_num [WINDOW_WIDTH], by norm_num [WINDOW_HEIGHT]⟩
  obtain ⟨rx, hrx, hrx0, hrx1, -⟩ := floatToInt_of_bounds c.x _ hx.1 hx.2 (by decide)
  obtain ⟨ry, hry, hry0, hry1, -⟩ := floatToInt_of_bounds c.y _ hy.1 hy.2 (by decide)
  have hW : WINDOW_WIDTH - 32 = 768 := by decide
  have hH : WINDOW_HEIGHT - 56 = 544 := by decide
  rw [hW] at hrx1
  rw [hH] at hry1
  have bx := (tdiv_bracket (rx + 16) 32 (by decide)).1 (by omega)
  have bY := (tdiv_bracket (ry + 28) 46 (by decide)).1 (by omega)
  have hcol : 0 ≤ Int.tdiv (rx + 16) 32 ∧ Int.tdiv (rx + 16) 32 < 25 := by
    constructor <;> omega
  have hrow : 0 ≤ Int.tdiv (ry + 28) 46 ∧ Int.tdiv (ry + 28) 46 < 13 := by
    constructor <;> omega
  obtain ⟨v, hv⟩ := cellAt_builtin_isSome _ _ hrow hcol
  exact ⟨rx, ry, _, _, v, hrx, hry, rfl, rfl, gridCell_eq m c rx ry hw hh hrx hry hcol hrow,
    hcol.1, hcol.2, hrow.1, hrow.2, by rw [hmap]; exact hv⟩

theorem update_lookup_in_bounds_witness :
    (0 ≤ (Character.create 768 544).x ∧
      (Character.create 768 544).x ≤ ((WINDOW_WIDTH - 32 : Int) : ℚ)) ∧
    (0 ≤ (Character.create 768 544).y ∧
      (Character.create 768 544).y ≤ ((WINDOW_HEIGHT - 56 : Int) : ℚ)) ∧
    ∃ rx ry gridX gridY v : Int,
      floatToInt (Character.create 768 544).x = some rx ∧
      floatToInt (Character.create 768 544).y = some ry ∧
      gridX = Int.tdiv (rx + 16) 32 ∧ gridY = Int.tdiv (ry + 28) 46 ∧
      renderedLevel.gridCell (Character.create 768 544) = some (gridY, gridX) ∧
      0 ≤ gridX ∧ gridX < 25 ∧ 0 ≤ gridY ∧ gridY < 13 ∧
      cellAt renderedLevel.mazeMap gridY gridX = some v :=
  ⟨by norm_num [Character.create, WINDOW_WIDTH], by norm_num [Character.create, WINDOW_HEIGHT],
   (update_lookup_in_bounds renderedLevel (Character.create 768 544) rfl rfl rfl
     (by norm_num [Character.create, WINDOW_WIDTH])
     (by norm_num [Character.create, WINDOW_HEIGHT])).1⟩

end MazeLevel

namespace Character

theorem inWindow_iff (c : Character) :
    c.InWindow ↔ (0 ≤ c.x ∧ c.x ≤ 768) ∧ (0 ≤ c.y ∧ c.y ≤ 544) := by
  unfold InWindow characterWidth characterHeight WINDOW_WIDTH WINDOW_HEIGHT
  push_cast
  constructor
  · rintro ⟨h1, h2, h3, h4⟩
    exact ⟨⟨h1, by linarith⟩, ⟨h3, by linarith⟩⟩
  · rintro ⟨⟨h1, h2⟩, ⟨h3, h4⟩⟩
    exact ⟨h1, by linarith, h3, by linarith⟩

/-- C6. Clamped movement keeps the character in the window: from a bounding
box inside `[0, 800] × [0, 600]`, with a non-negative movement speed and
`dt ≥ 0`, each of `moveLeft`, `moveRight`, `moveUp`, `moveDown` ends with the
bounding box inside the window, that is `0 ≤ x ≤ 768` and `0 ≤ y ≤ 544`, and
changes no field but the coordinate of its own axis. -/
theorem moves_stay_in_window (c : Character) (dt : ℚ) (hc : c.InWindow)
    (hs : 0 ≤ c.movementSpeed) (hdt : 0 ≤ dt) :
    ((c.moveLeft dt).InWindow ∧ (c.moveRight dt).InWindow ∧
      (c.moveUp dt).InWindow ∧ (c.moveDown dt).InWindow) ∧
    (∀ c1 ∈ [c.moveLeft dt, c.moveRight dt, c.moveUp dt, c.moveDown dt],
      (0 ≤ c1.x ∧ c1.x ≤ 768) ∧ (0 ≤ c1.y ∧ c1.y ≤ 544)) ∧
    (c.moveLeft dt = { c with x := (c.moveLeft dt).x } ∧
      c.moveRight dt = { c with x := (c.moveRight dt).x } ∧
      c.moveUp dt = { c with y := (c.moveUp dt).y } ∧
      c.moveDown dt = { c with y := (c.moveDown dt).y }) := by
  have hsd : 0 ≤ c.movementSpeed * dt := mul_nonneg hs hdt
  obtain ⟨⟨hx0, hx1⟩, ⟨hy0, hy1⟩⟩ := (inWindow_iff c).mp hc
  have hL : (c.moveLeft dt).InWindow := by
    rw [inWindow_iff]
    simp only [moveLeft]
    refine ⟨?_, ⟨hy0, hy1⟩⟩
    split
    · norm_num
    · constructor <;> linarith
  have hR : (c.moveRight dt).InWindow := by
    rw [inWindow_iff]
    simp only [moveRight, WINDOW_WIDTH, characterWidth]
    refine ⟨?_, ⟨hy0, hy1⟩⟩
    split
    · norm_num
    · rename_i h
      norm_num at h
      constructor <;> linarith
  have hU : (c.moveUp dt).InWindow := by
    rw [inWindow_iff]
    simp only [moveUp]
    refine ⟨⟨hx0, hx1⟩, ?_⟩
    split
    · norm_num
    · constructor <;> linarith
  have hD : (c.moveDown dt).InWindow := by
    rw [inWindow_iff]
    simp only [moveDown, WINDOW_HEIGHT, characterHeight]
    refine ⟨⟨hx0, hx1⟩, ?_⟩
    split
    · norm_num
    · rename_i h
      norm_num at h
      constructor <;> linarith
  refine ⟨⟨hL, hR, hU, hD⟩, ?_, rfl, rfl, rfl, rfl⟩
  intro c1 hc1
  simp only [List.mem_cons, List.mem_singleton, List.not_mem_nil, or_false] at hc1
  rcases hc1 with h | h | h | h <;> subst h
  · exact (inWindow_iff _).mp hL
  · exact (inWindow_iff _).mp hR
  · exact (inWindow_iff _).mp hU
  · exact (inWindow_iff _).mp hD

theorem moves_stay_in_window_witness :
    (Character.create 350 500).InWindow ∧ 0 ≤ (Character.create 350 500).movementSpeed ∧
    (0 : ℚ) ≤ 10 ∧
    ((Character.create 350 500).moveLeft 10).InWindow ∧
    ((Character.create 350 500).moveRight 10).InWindow ∧
    ((Character.create 350 500).moveUp 10).InWindow ∧
    ((Character.create 350 500).moveDown 10).InWindow :=
  ⟨by norm_num [InWindow, create, characterWidth, characterHeight, WINDOW_WIDTH, WINDOW_HEIGHT],
   by norm_num [create], by norm_num,
   (moves_stay_in_window (Character.create 350 500) 10
     (by norm_num [InWindow, create, characterWidth, characterHeight, WINDOW_WIDTH,
       WINDOW_HEIGHT])
     (by norm_num [create]) (by norm_num)).1⟩

/-- While airborne, the state after `n` updates of a jump in closed form. -/
theorem updateN_airborne (c : Character) (dt : ℚ) (hcan : c.canJump = true)
    (hrest : c.isJumping = false) (hy : c.y = c.originalY) (hdt : 0 < dt) :
    ∀ n : Nat, (n = 0 ∨ ((n : ℚ) + 1) * dt < 9 / 10) →
      updateN c.startJump dt n =
        { c with isJumping := true, velocity := -900 + 2000 * (n : ℚ) * dt,
                 y := c.originalY + (n : ℚ) * dt * (-900 + 1000 * dt * ((n : ℚ) + 1)) } := by
  intro n
  induction n with
  | zero =>
    intro _
    cases c
    simp_all [updateN, startJump, initialJumpVelocity]
  | succ n ih =>
    intro h
    have hA : ((n : ℚ) + 1 + 1) * dt < 9 / 10 := by
      rcases h with h | h
      · exact absurd h (Nat.succ_ne_zero n)
      · push_cast at h
        exact h
    have hprev : n = 0 ∨ ((n : ℚ) + 1) * dt < 9 / 10 := by
      right
      nlinarith
    have hn : (0 : ℚ) ≤ (n : ℚ) := Nat.cast_nonneg n
    have hnot : ¬ (c.originalY ≤ c.originalY + (n : ℚ) * dt * (-900 + 1000 * dt * ((n : ℚ) + 1)) +
        (-900 + 2000 * (n : ℚ) * dt + 2000 * dt) * dt) := by
      have hpos : 0 < ((n : ℚ) + 1) * dt := by positivity
      nlinarith
    simp only [updateN, ih hprev, update, hcan, gravity, Bool.and_self, if_true, ge_iff_le, hnot,
      if_false]
    cases c
    simp only [Character.mk.injEq, and_true, true_and]
    push_cast
    constructor <;> ring

/-- The landing update: the first one that finds `y` back at the original height
or beyond. -/
theorem updateN_landing (c : Character) (dt : ℚ) (hcan : c.canJump = true)
    (hrest : c.isJumping = false) (hy : c.y = c.originalY) (hdt : 0 < dt) (n : Nat)
    (hn : n = 0 ∨ ((n : ℚ) + 1) * dt < 9 / 10) (hland : 9 / 10 ≤ ((n : ℚ) + 1 + 1) * dt) :
    updateN c.startJump dt (n + 1) = { c with velocity := 0 } := by
  have h0 : (0 : ℚ) ≤ (n : ℚ) := Nat.cast_nonneg n
  have hge : c.originalY ≤ c.originalY + (n : ℚ) * dt * (-900 + 1000 * dt * ((n : ℚ) + 1)) +
      (-900 + 2000 * (n : ℚ) * dt + 2000 * dt) * dt := by
    have hpos : 0 < ((n : ℚ) + 1) * dt := by positivity
    nlinarith
  simp only [updateN, updateN_airborne c dt hcan hrest hy hdt n hn, update, hcan, gravity,
    Bool.and_self, if_true, ge_iff_le, hge]
  cases c
  simp_all

theorem update_landed (c : Character) (dt : ℚ) (hrest : c.isJumping = false) :
    ({ c with velocity := 0 } : Character).update dt = { c with velocity := 0 } := by
  simp [update, hrest]

theorem updateN_landed (c : Character) (dt : ℚ) (hrest : c.isJumping = false) (n : Nat) :
    updateN { c with velocity := 0 } dt n = { c with velocity := 0 } := by
  induction n with
  | zero => rfl
  | succ n ih => rw [updateN, ih, update_landed c dt hrest]

theorem updateN_add (c : Character) (dt : ℚ) (a b : Nat) :
    updateN c dt (a + b) = updateN (updateN c dt a) dt b := by
  induction b with
  | zero => rfl
  | succ b ih => rw [← Nat.add_assoc, updateN, ih, updateN]

/-- The landing call is at least 1 and at most `⌈0.9 / dt⌉`. -/
theorem landingCall_bounds (dt : ℚ) (hdt : 0 < dt) :
    1 ≤ landingCall dt ∧ landingCall dt ≤ ⌈(9 / 10 : ℚ) / dt⌉₊ := by
  have hpos : 0 < ⌈(9 / 10 : ℚ) / dt⌉₊ := Nat.ceil_pos.mpr (by positivity)
  unfold landingCall
  constructor <;> omega

/-- Before the landing call the jump is airborne. -/
theorem airborne_before_landing (dt : ℚ) (hdt : 0 < dt) (i : Nat)
    (hi : i < landingCall dt) : i = 0 ∨ ((i : ℚ) + 1) * dt < 9 / 10 := by
  by_cases h0 : i = 0
  · exact Or.inl h0
  · right
    have hlt : i + 1 < ⌈(9 / 10 : ℚ) / dt⌉₊ := by
      unfold landingCall at hi
      omega
    have h := Nat.lt_ceil.mp hlt
    push_cast at h
    exact (lt_div_iff₀ hdt).mp h

/-- At the landing call the closed form would be at the original height or
beyond. -/
theorem landed_at_landing (dt : ℚ) (hdt : 0 < dt) :
    9 / 10 ≤ (((landingCall dt - 1 : Nat) : ℚ) + 1 + 1) * dt := by
  have hle : ⌈(9 / 10 : ℚ) / dt⌉₊ ≤ (landingCall dt - 1) + 1 + 1 := by
    unfold landingCall
    omega
  have h := Nat.ceil_le.mp hle
  push_cast at h
  exact (div_le_iff₀ hdt).mp h

/-- The height after `i` updates, before the landing call. -/
theorem y_before_landing (c : Character) (dt : ℚ) (hcan : c.canJump = true)
    (hrest : c.isJumping = false) (hy : c.y = c.originalY) (hdt : 0 < dt) (i : Nat)
    (hi : i < landingCall dt) :
    (updateN c.startJump dt i).y =
      c.originalY + (i : ℚ) * dt * (-900 + 1000 * dt * ((i : ℚ) + 1)) ∧
    (updateN c.startJump dt i).isJumping = true := by
  rw [updateN_airborne c dt hcan hrest hy hdt i (airborne_before_landing dt hdt i hi)]
  exact ⟨rfl, rfl⟩

/-- From the landing call on the character is back at rest. -/
theorem updateN_from_landing (c : Character) (dt : ℚ) (hcan : c.canJump = true)
    (hrest : c.isJumping = false) (hy : c.y = c.originalY) (hdt : 0 < dt) (k : Nat)
    (hk : landingCall dt ≤ k) :
    updateN c.startJump dt k = { c with velocity := 0 } := by
  have hN := (landingCall_bounds dt hdt).1
  have hland : updateN c.startJump dt (landingCall dt - 1 + 1) = { c with velocity := 0 } :=
    updateN_landing c dt hcan hrest hy hdt (landingCall dt - 1)
      (airborne_before_landing dt hdt _ (by omega)) (landed_at_landing dt hdt)
  have hk2 : k = (landingCall dt - 1 + 1) + (k - landingCall dt) := by omega
  rw [hk2, updateN_add, hland, updateN_landed c dt hrest]

/-- The height never exceeds the original height during a jump. -/
theorem y_le_original (c : Character) (dt : ℚ) (hcan : c.canJump = true)
    (hrest : c.isJumping = false) (hy : c.y = c.originalY) (hdt : 0 < dt) (i : Nat) :
    (updateN c.startJump dt i).y ≤ c.originalY ∧
    (1 ≤ i → i < landingCall dt → (updateN c.startJump dt i).y < c.originalY) := by
  by_cases hi : i < landingCall dt
  · rw [(y_before_landing c dt hcan hrest hy hdt i hi).1]
    have hcast : (0 : ℚ) ≤ (i : ℚ) := Nat.cast_nonneg i
    rcases airborne_before_landing dt hdt i hi with h0 | hA
    · subst h0
      refine ⟨by simp, fun h1 => absurd h1 (by decide)⟩
    · have hidt : 0 ≤ (i : ℚ) * dt := by positivity
      refine ⟨by nlinarith, fun h1 _ => ?_⟩
      have hi1 : (1 : ℚ) ≤ (i : ℚ) := by exact_mod_cast h1
      have hidt1 : 0 < (i : ℚ) * dt := by positivity
      nlinarith
  · rw [updateN_from_landing c dt hcan hrest hy hdt i (by omega)]
    exact ⟨le_of_eq hy, fun _ h => absurd h hi⟩

/-- C7 (amended). Jump physics in exact arithmetic: for a jump-enabled character
at rest at its original height and a fixed `dt > 0`, after `startJump` the
heights produced by repeated `update(dt)` strictly decrease for the first
`turningCall dt` calls and never decrease from then to the landing call
`landingCall dt`; the decreasing part is non-empty exactly when `dt < 9/20`,
and for `dt ≥ 9/20` the first call already lands.
The height never exceeds the original one and is below it, airborne, strictly
between the start and the landing call; the landing call comes after at least
one and at most `⌈0.9 / dt⌉` calls and leaves the character at exactly the
original height with velocity 0 and the airborne flag cleared; every later
`update` leaves the character unchanged. -/
theorem jump_trajectory (c : Character) (dt : ℚ) (hcan : c.canJump = true)
    (hrest : c.isJumping = false) (hy : c.y = c.originalY) (hdt : 0 < dt) :
    (1 ≤ landingCall dt ∧ landingCall dt ≤ ⌈(9 / 10 : ℚ) / dt⌉₊ ∧
      turningCall dt < landingCall dt) ∧
    (∀ i, i < turningCall dt →
      (updateN c.startJump dt (i + 1)).y < (updateN c.startJump dt i).y) ∧
    (∀ i, turningCall dt ≤ i → i < landingCall dt →
      (updateN c.startJump dt i).y ≤ (updateN c.startJump dt (i + 1)).y) ∧
    ((0 < turningCall dt ↔ dt < 9 / 20) ∧ (9 / 20 ≤ dt → landingCall dt = 1)) ∧
    (∀ i, (updateN c.startJump dt i).y ≤ c.originalY) ∧
    (∀ i, 1 ≤ i → i < landingCall dt →
      (updateN c.startJump dt i).isJumping = true ∧
      (updateN c.startJump dt i).y < c.originalY) ∧
    ((updateN c.startJump dt (landingCall dt)).y = c.originalY ∧
      (updateN c.startJump dt (landingCall dt)).velocity = 0 ∧
      (updateN c.startJump dt (landingCall dt)).isJumping = false ∧
      updateN c.startJump dt (landingCall dt) = { c with velocity := 0 }) ∧
    (∀ k, landingCall dt ≤ k →
      updateN c.startJump dt k = updateN c.startJump dt (landingCall dt)) ∧
    (∀ dt1 : ℚ, (updateN c.startJump dt (landingCall dt)).update dt1 =
      updateN c.startJump dt (landingCall dt)) := by
  have hN := landingCall_bounds dt hdt
  have hland := updateN_from_landing c dt hcan hrest hy hdt (landingCall dt) (le_refl _)
  have hdiff : ∀ i, i + 1 < landingCall dt →
      (updateN c.startJump dt (i + 1)).y - (updateN c.startJump dt i).y =
        dt * (-900 + 2000 * ((i : ℚ) + 1) * dt) := by
    intro i hi
    rw [(y_before_landing c dt hcan hrest hy hdt (i + 1) hi).1,
      (y_before_landing c dt hcan hrest hy hdt i (by omega)).1]
    push_cast
    ring
  refine ⟨⟨hN.1, hN.2, ?_⟩, ?_, ?_, ?_, ?_, ?_, ?_, ?_, ?_⟩
  · unfold turningCall
    omega
  · intro i hi
    have hi1 : i + 1 < landingCall dt := by
      unfold turningCall at hi
      omega
    have hi2 : i + 1 < ⌈(9 / 20 : ℚ) / dt⌉₊ := by
      unfold turningCall at hi
      omega
    have h := Nat.lt_ceil.mp hi2
    push_cast at h
    have h2 := (lt_div_iff₀ hdt).mp h
    have hd := hdiff i hi1
    have : dt * (-900 + 2000 * ((i : ℚ) + 1) * dt) < 0 := by
      apply mul_neg_of_pos_of_neg hdt
      linarith
    linarith
  · intro i hti hi
    by_cases hlast : i + 1 = landingCall dt
    · rw [hlast, hland]
      exact le_trans (y_le_original c dt hcan hrest hy hdt i).1 (le_of_eq hy.symm)
    · have hi1 : i + 1 < landingCall dt := by omega
      have hi2 : ⌈(9 / 20 : ℚ) / dt⌉₊ ≤ i + 1 := by
        unfold turningCall at hti
        omega
      have h := Nat.ceil_le.mp hi2
      push_cast at h
      have h2 := (div_le_iff₀ hdt).mp h
      have hd := hdiff i hi1
      have : 0 ≤ dt * (-900 + 2000 * ((i : ℚ) + 1) * dt) := by
        apply mul_nonneg (le_of_lt hdt)
        linarith
      linarith
  · refine ⟨⟨?_, ?_⟩, ?_⟩
    rotate_left 2
    · intro hge
      have h2 : ⌈(9 / 10 : ℚ) / dt⌉₊ ≤ 2 := by
        apply Nat.ceil_le.mpr
        push_cast
        rw [div_le_iff₀ hdt]
        linarith
      unfold landingCall
      omega
    · intro ht
      have h1 : 1 < ⌈(9 / 20 : ℚ) / dt⌉₊ := by
        unfold turningCall at ht
        omega
      have h := Nat.lt_ceil.mp h1
      push_cast at h
      have h2 := (lt_div_iff₀ hdt).mp h
      linarith
    · intro hlt
      have h1 : 1 < ⌈(9 / 20 : ℚ) / dt⌉₊ := by
        apply Nat.lt_ceil.mpr
        push_cast
        rw [lt_div_iff₀ hdt]
        linarith
      have h2 : 2 < ⌈(9 / 10 : ℚ) / dt⌉₊ := by
        apply Nat.lt_ceil.mpr
        push_cast
        rw [lt_div_iff₀ hdt]
        linarith
      unfold turningCall landingCall
      omega
  · exact fun i => (y_le_original c dt hcan hrest hy hdt i).1
  · exact fun i h1 h2 => ⟨(y_before_landing c dt hcan hrest hy hdt i h2).2,
      (y_le_original c dt hcan hrest hy hdt i).2 h1 h2⟩
  · rw [hland]
    exact ⟨hy, rfl, hrest, rfl⟩
  · intro k hk
    rw [hland, updateN_from_landing c dt hcan hrest hy hdt k hk]
  · intro dt1
    rw [hland, update_landed c dt1 hrest]

theorem jump_trajectory_witness :
    (Character.create 350 500).canJump = true ∧ (Character.create 350 500).isJumping = false ∧
    (Character.create 350 500).y = (Character.create 350 500).originalY ∧ (0 : ℚ) < 3 / 20 ∧
    (updateN (Character.create 350 500).startJump (3 / 20) (landingCall (3 / 20))).y =
      (Character.create 350 500).originalY :=
  ⟨rfl, rfl, rfl, by norm_num,
   (jump_trajectory (Character.create 350 500) (3 / 20) rfl rfl rfl (by norm_num)).2.2.2.2.2.2.1.1⟩

/-- C7 (as stated, refuted). With `dt = 1/2` the first `update` after
`startJump` already lands: the height after it is the original 500, not below
it, the airborne flag is cleared, and the next update leaves 500 again; the
heights never decrease. -/
theorem jump_half_second_never_descends :
    (Character.create 350 500).startJump.y = 500 ∧
    ¬ ((updateN (Character.create 350 500).startJump (1 / 2) 1).y <
        (updateN (Character.create 350 500).startJump (1 / 2) 0).y) ∧
    (updateN (Character.create 350 500).startJump (1 / 2) 1).y = 500 ∧
    (updateN (Character.create 350 500).startJump (1 / 2) 1).isJumping = false ∧
    (updateN (Character.create 350 500).startJump (1 / 2) 2).y = 500 := by
  norm_num [updateN, update, startJump, create, gravity, initialJumpVelocity]

end Character

namespace DialogSystem

/-- The state after `k` advances of a fresh dialog, in closed form. -/
theorem advanceN_create (k : Nat) :
    advanceN create k =
      { create with dialogIndex := ((min k 2 : Nat) : Int), finished := decide (3 ≤ k) } := by
  induction k with
  | zero => rfl
  | succ k ih =>
    rw [advanceN, ih]
    rcases Nat.lt_or_ge k 2 with h | h
    · have hk : k = 0 ∨ k = 1 := by omega
      rcases hk with hk | hk <;> subst hk <;> simp [advanceDialog, create]
    · have e1 : min k 2 = 2 := by omega
      have e2 : min (k + 1) 2 = 2 := by omega
      rw [e1, e2]
      have e3 : decide (3 ≤ k + 1) = true := by
        simp
        omega
      rw [e3]
      simp [advanceDialog, create]

/-- C8. Dialog sequencing with the 3 built-in lines: after `k` calls of
`advanceDialog` on a fresh `DialogSystem` the line index is `min k 2`, a valid
index, and `isFinished` is true exactly when `k ≥ 3`; after 2 calls the third
line is showing and `isFinished` is false, and a 3rd call sets it; a call of
`advanceDialog`, on any dialog system, never lowers the index and never clears
`finished`. -/
theorem dialog_sequencing :
    (∀ k : Nat,
      (advanceN create k).dialogIndex = ((min k 2 : Nat) : Int) ∧
      (0 ≤ (advanceN create k).dialogIndex ∧
        (advanceN create k).dialogIndex < ((advanceN create k).dialogs.length : Int)) ∧
      (∃ line, (advanceN create k).currentLine = some line) ∧
      ((advanceN create k).isFinished = true ↔ 3 ≤ k)) ∧
    ((advanceN create 2).currentLine = some "Cuento contigo, suerte." ∧
      (advanceN create 2).isFinished = false ∧
      (advanceN create 3).isFinished = true) ∧
    (∀ d : DialogSystem,
      d.dialogIndex ≤ d.advanceDialog.dialogIndex ∧
      (d.isFinished = true → d.advanceDialog.isFinished = true)) := by
  refine ⟨fun k => ?_, ?_, fun d => ?_⟩
  · rw [advanceN_create k]
    have hk : min k 2 = 0 ∨ min k 2 = 1 ∨ min k 2 = 2 := by omega
    refine ⟨rfl, ?_, ?_, by simp [isFinished]⟩
    · rcases hk with h | h | h <;> rw [h] <;> simp [create]
    · rcases hk with h | h | h <;> rw [h] <;> simp [create, currentLine]
  · rw [advanceN_create 2, advanceN_create 3]
    simp [create, currentLine, isFinished]
  · unfold advanceDialog isFinished
    split
    · exact ⟨by simp, fun h => h⟩
    · exact ⟨le_refl _, fun _ => rfl⟩

theorem dialog_sequencing_witness :
    (advanceN create 3).isFinished = true ∧
    (advanceN create 3).advanceDialog.isFinished = true :=
  ⟨dialog_sequencing.2.1.2.2,
   (dialog_sequencing.2.2 (advanceN create 3)).2 dialog_sequencing.2.1.2.2⟩

end DialogSystem

/-! ## Single-precision rounding and the dog -/

namespace F32

end F32

namespace Dog

end Dog

namespace Game

/-- The moves of the INTRO branch keep the game state, dialog and maze level. -/
theorem introMoves_fields (ks : KeyboardState) (dt : ℚ) (g : Game) :
    (introMoves ks dt g).gameState = g.gameState ∧
      (introMoves ks dt g).mazeLevel = g.mazeLevel ∧
      (introMoves ks dt g).dialogSystem = g.dialogSystem ∧
      (introMoves ks dt g).running = g.running := by
  rcases ks with ⟨u, d, l, r⟩
  cases l <;> cases r <;> simp [introMoves]

/-- The INTRO branch: what it does to the game state and the maze level. -/
theorem handleIntro_spec (ev : Event) (ks : KeyboardState) (dt : ℚ) (g g1 : Game)
    (h : handleIntro ev ks dt g = some g1) :
    (ev = Event.MOUSEBUTTONDOWN MouseButton.LEFT ∧
      g.dialogSystem.advanceDialog.isFinished = true ∧
      g1.gameState = GameState.MAZE ∧ g1.dialogSystem = g.dialogSystem.advanceDialog ∧
      ∃ m c1, MazeLevel.create g.character = some (m, c1) ∧ g1.mazeLevel = some m) ∨
    (¬ (ev = Event.MOUSEBUTTONDOWN MouseButton.LEFT ∧
        g.dialogSystem.advanceDialog.isFinished = true) ∧
      g1.gameState = g.gameState ∧ g1.mazeLevel = g.mazeLevel) := by
  unfold handleIntro at h
  by_cases hclick : ev = Event.MOUSEBUTTONDOWN MouseButton.LEFT
  · subst hclick
    by_cases hfin : g.dialogSystem.advanceDialog.isFinished = true
    · left
      simp only [reduceCtorEq, if_false, if_true, hfin, MazeLevel.create_eq, Option.pure_def,
        Option.bind_eq_bind, Option.some_bind, Option.some.injEq] at h
      have hf := introMoves_fields ks dt
        { g with dialogSystem := g.dialogSystem.advanceDialog, gameState := GameState.MAZE,
                 mazeLevel := some { MazeLevel.renderedLevel with startX := none, startY := none },
                 character := { g.character with canJump := false, movementSpeed := 1800,
                                                 x := 48, y := 69 } }
      rw [h] at hf
      exact ⟨rfl, hfin, hf.1, hf.2.2.1, _, _, MazeLevel.create_eq g.character, hf.2.1⟩
    · right
      simp only [reduceCtorEq, if_false, if_true, hfin, Option.pure_def,
        Option.bind_eq_bind, Option.some_bind, Option.some.injEq, Bool.false_eq_true] at h
      have hf := introMoves_fields ks dt { g with dialogSystem := g.dialogSystem.advanceDialog }
      rw [h] at hf
      exact ⟨fun hc => hfin hc.2, hf.1, hf.2.1⟩
  · right
    simp only [hclick, if_false, Option.pure_def, Option.bind_eq_bind, Option.some_bind,
      Option.some.injEq] at h
    by_cases hjump : ev = Event.KEYDOWN Keycode.UP
    · have hf := introMoves_fields ks dt { g with character := g.character.startJump }
      simp only [hjump, if_true] at h
      rw [h] at hf
      exact ⟨fun hc => hclick hc.1, hf.1, hf.2.1⟩
    · have hf := introMoves_fields ks dt g
      simp only [hjump, if_false] at h
      rw [h] at hf
      exact ⟨fun hc => hclick hc.1, hf.1, hf.2.1⟩

/-- The moves of the MAZE branch keep the game state and the maze level. -/
theorem mazeMoves_fields (ks : KeyboardState) (dt : ℚ) (g : Game) :
    (mazeMoves ks dt g).gameState = g.gameState ∧
      (mazeMoves ks dt g).mazeLevel = g.mazeLevel ∧
      (mazeMoves ks dt g).dialogSystem = g.dialogSystem ∧
      (mazeMoves ks dt g).running = g.running := by
  rcases ks with ⟨u, d, l, r⟩
  cases u <;> cases d <;> cases l <;> cases r <;> simp [mazeMoves]

/-- The MAZE branch: it needs the maze level, and moves on to VICTORY exactly
when the level reports completed. -/
theorem handleMaze_spec (ks : KeyboardState) (dt : ℚ) (g g1 : Game)
    (h : handleMaze ks dt g = some g1) :
    ∃ m, g.mazeLevel = some m ∧
      ((m.isLevelCompleted = true ∧ g1.gameState = GameState.VICTORY ∧ g1.mazeLevel = none) ∨
       (m.isLevelCompleted = false ∧ g1.gameState = g.gameState ∧
         g1.mazeLevel = g.mazeLevel)) := by
  unfold handleMaze at h
  have hf := mazeMoves_fields ks dt g
  simp only [Option.pure_def, Option.bind_eq_bind] at h
  rw [hf.2.1] at h
  cases hm : g.mazeLevel with
  | none =>
    rw [hm] at h
    simp at h
  | some m =>
    rw [hm] at h
    refine ⟨m, rfl, ?_⟩
    simp only [Option.some_bind] at h
    by_cases hc : m.isLevelCompleted = true
    · left
      simp only [hc, if_true, Option.some.injEq] at h
      subst h
      exact ⟨hc, rfl, rfl⟩
    · right
      simp only [hc, Bool.false_eq_true, if_false, Option.some.injEq] at h
      subst h
      exact ⟨by simpa using hc, hf.1, by rw [hf.2.1, hm]⟩

end Game

namespace Game

set_option maxRecDepth 100000 in
/-- The loop can reach VICTORY from its initial state: `winningRun` does. -/
theorem winningRun_victory :
    (runLoop winningRun initial).map (fun g => (g.gameState, g.mazeLevel, g.running)) =
      some (GameState.VICTORY, none, true) := by
  with_unfolding_all rfl

end Game

namespace Game

/-- The game after the three clicks that end the dialog: in MAZE, with the
level just constructed and the character where the constructor put it. -/
theorem three_clicks (dt : ℚ) :
    handleEvents dt [click, click, click] initial =
      some { initial with
        gameState := GameState.MAZE,
        dialogSystem := { DialogSystem.create with dialogIndex := 2, finished := true },
        mazeLevel := some { MazeLevel.renderedLevel with startX := none, startY := none },
        character := { initial.character with canJump := false, movementSpeed := 1800,
                                              x := 48, y := 69 } } := by
  simp [handleEvents, handleEvent, handleIntro, click, noKeys, introMoves, initial,
    DialogSystem.advanceDialog, DialogSystem.create, DialogSystem.isFinished,
    MazeLevel.create_eq]

/-- C11 (what the code does). The start cache is not always set when a wall
reset reads it. After the three left clicks that end the dialog, with no key
held, the game is in MAZE with the level and the character exactly as the
constructor leaves them: `startX` and `startY` were never assigned (the
constructor's scan stores only `endX`, `endY`), and the character's
bounding-box center is over the wall cell at row 2, column 2. The `update` of
that same frame runs before the first `render`, takes the wall-reset branch and
reads the unassigned cache, so the reset position, the update and the whole
loop iteration are undefined, for every frame time; only a `render` would have
set the cache to the start cell (1, 1), giving the reset position (48, 69). -/
theorem first_update_reads_unset_cache (dt : ℚ) :
    ∃ g m, handleEvents dt [click, click, click] initial = some g ∧
      g.gameState = GameState.MAZE ∧ g.mazeLevel = some m ∧
      MazeLevel.create initial.character = some (m, g.character) ∧
      (m.startX = none ∧ m.startY = none) ∧ m.levelCompleted = false ∧
      (g.character.x = 48 ∧ g.character.y = 69) ∧
      m.gridCell g.character = some (2, 2) ∧ MazeLevel.cellAt m.mazeMap 2 2 = some 1 ∧
      m.resetPosition = none ∧ m.update g.character dt = none ∧
      updateAndRender dt g = none ∧
      runLoop [{ deltaTime := dt, events := [click, click, click] }] initial = none ∧
      (m.render.startX = some 1 ∧ m.render.startY = some 1 ∧
        m.render.resetPosition = some (48, 69)) := by
  have hx : floatToInt (48 : ℚ) = some 48 := by
    simp [floatToInt, checkedInt, INT_MIN, INT_MAX]
  have hy : floatToInt (69 : ℚ) = some 69 := by
    simp [floatToInt, checkedInt, INT_MIN, INT_MAX]
  have hg : MazeLevel.gridCell
      { MazeLevel.renderedLevel with startX := none, startY := none }
      { initial.character with canJump := false, movementSpeed := 1800, x := 48, y := 69 } =
        some (2, 2) := by
    have := MazeLevel.gridCell_eq
      { MazeLevel.renderedLevel with startX := none, startY := none }
      { initial.character with canJump := false, movementSpeed := 1800, x := 48, y := 69 }
      48 69 rfl rfl hx hy (by decide) (by decide)
    simpa using this
  have hreset : MazeLevel.resetPosition
      { MazeLevel.renderedLevel with startX := none, startY := none } = none := by
    simp [MazeLevel.resetPosition]
  have hupd : MazeLevel.update
      { MazeLevel.renderedLevel with startX := none, startY := none }
      { initial.character with canJump := false, movementSpeed := 1800, x := 48, y := 69 }
      dt = none := by
    rw [MazeLevel.update_of_cell _ _ dt 2 2 1 rfl hg (by decide), hreset]
    simp
  have hrender : MazeLevel.Rendered
      (MazeLevel.render { MazeLevel.renderedLevel with startX := none, startY := none }) := by
    have h := MazeLevel.create_render initial.character
    rw [MazeLevel.create_eq] at h
    simp only [Option.map_some', Option.some.injEq] at h
    rw [h]
    exact MazeLevel.renderedLevel_rendered
  have hur : updateAndRender dt
      { initial with
        gameState := GameState.MAZE,
        dialogSystem := { DialogSystem.create with dialogIndex := 2, finished := true },
        mazeLevel := some { MazeLevel.renderedLevel with startX := none, startY := none },
        character := { initial.character with canJump := false, movementSpeed := 1800,
                                              x := 48, y := 69 } } = none := by
    simp [updateAndRender, hupd]
  have hrun : initial.running = true := rfl
  refine ⟨_, _, three_clicks dt, rfl, rfl, MazeLevel.create_eq _, ⟨rfl, rfl⟩, rfl, ⟨rfl, rfl⟩,
    hg, by decide, hreset, hupd, hur, ?_, hrender.2.2.2.1, hrender.2.2.2.2,
    MazeLevel.resetPosition_rendered _ hrender⟩
  have hbind : ∀ o : Option Game, o = none → o.bind (runLoop []) = none := by
    intro o ho
    rw [ho]
    rfl
  simp only [runLoop, frame, three_clicks dt, hrun, if_true, Option.some_bind]
  exact hbind _ hur

end Game

namespace MazeLevel

/-- A defined `update` changes nothing of the level but `levelCompleted`. -/
theorem update_keeps_cache (m m1 : MazeLevel) (c c1 : Character) (dt : ℚ)
    (h : m.update c dt = some (m1, c1)) :
    m1.mazeMap = m.mazeMap ∧ m1.tileWidth = m.tileWidth ∧ m1.tileHeight = m.tileHeight ∧
      m1.startX = m.startX ∧ m1.startY = m.startY := by
  cases hc : m.levelCompleted with
  | true =>
    rw [update_completed m c dt hc] at h
    simp only [Option.some.injEq, Prod.mk.injEq] at h
    rw [← h.1]
    exact ⟨rfl, rfl, rfl, rfl, rfl⟩
  | false =>
    cases hg : m.gridCell c with
    | none => simp [update, hc, hg] at h
    | some p =>
      obtain ⟨gridY, gridX⟩ := p
      cases hv : cellAt m.mazeMap gridY gridX with
      | none => simp [update, hc, hg, hv] at h
      | some v =>
        rw [update_of_cell m c dt gridY gridX v hc hg hv] at h
        by_cases h1 : v = 1
        · rw [if_pos h1] at h
          rcases Option.map_eq_some'.mp h with ⟨p, _, hp⟩
          simp only [Prod.mk.injEq] at hp
          rw [← hp.1]
          exact ⟨rfl, rfl, rfl, rfl, rfl⟩
        · rw [if_neg h1] at h
          simp only [Option.some.injEq, Prod.mk.injEq] at h
          rw [← h.1]
          exact ⟨rfl, rfl, rfl, rfl, rfl⟩

set_option maxRecDepth 8000 in
/-- One `render` of a level of the built-in map sets the cache to (1, 1). -/
theorem render_of_cache (m : MazeLevel) (h : CacheUnsetOrStart m) : Rendered m.render := by
  obtain ⟨h1, h2, h3, h4⟩ := h
  rcases h4 with ⟨h5, h6⟩ | ⟨h5, h6⟩ <;>
    simp [Rendered, render, h1, h2, h3, h5, h6, builtinMap, renderRows, renderRow, renderCell]

end MazeLevel

namespace Game

/-- The update-and-render part of a frame and the maze level: in MAZE the level
is updated and then rendered, elsewhere it is left alone. -/
theorem updateAndRender_mazeLevel (dt : ℚ) (g g1 : Game) (h : updateAndRender dt g = some g1) :
    (g.gameState = GameState.MAZE ∧ ∃ m m1 c1, g.mazeLevel = some m ∧
      m.update g.character dt = some (m1, c1) ∧ g1.mazeLevel = some m1.render ∧
      g1.character = c1) ∨
    (g.gameState ≠ GameState.MAZE ∧ g1.mazeLevel = g.mazeLevel) := by
  unfold updateAndRender at h
  cases hs : g.gameState with
  | INTRO =>
    simp only [hs, Option.some.injEq] at h
    subst h
    exact Or.inr ⟨by simp, rfl⟩
  | MAZE =>
    left
    simp only [hs, Option.pure_def, Option.bind_eq_bind] at h
    cases hm : g.mazeLevel with
    | none =>
      rw [hm] at h
      simp at h
    | some m =>
      rw [hm] at h
      simp only [Option.some_bind] at h
      cases hu : m.update g.character dt with
      | none =>
        rw [hu] at h
        simp at h
      | some p =>
        rw [hu] at h
        simp only [Option.some_bind, Option.some.injEq] at h
        subst h
        exact ⟨rfl, m, p.1, p.2, rfl, hu, rfl, rfl⟩
  | VICTORY =>
    simp only [hs, Option.some.injEq] at h
    subst h
    exact Or.inr ⟨by simp, rfl⟩

/-- In every state the loop reaches from its initial state, the maze level, if
there is one, has the built-in map and a start cache that is unassigned or
(1, 1). -/
theorem reaches_initial_cache (g : Game) (h : Reaches initial g) :
    ∀ m, g.mazeLevel = some m → MazeLevel.CacheUnsetOrStart m := by
  induction h with
  | refl =>
    intro m hm
    simp [initial] at hm
  | tail inp a b _ hstep ih =>
    intro m hm
    cases inp with
    | update dt =>
      rcases updateAndRender_mazeLevel dt a b hstep with ⟨_, m0, m1, c1, h0, hu, hb, _⟩ | ⟨_, hb⟩
      · rw [hb] at hm
        simp only [Option.some.injEq] at hm
        have hk := MazeLevel.update_keeps_cache m0 m1 a.character c1 dt hu
        obtain ⟨i1, i2, i3, i4⟩ := ih m0 h0
        have hinv1 : MazeLevel.CacheUnsetOrStart m1 :=
          ⟨by rw [hk.1, i1], by rw [hk.2.1, i2], by rw [hk.2.2.1, i3],
           by rw [hk.2.2.2.1, hk.2.2.2.2]; exact i4⟩
        have hr := MazeLevel.render_of_cache m1 hinv1
        rw [← hm]
        exact ⟨hr.1, hr.2.1, hr.2.2.1, Or.inr hr.2.2.2⟩
      · rw [hb] at hm
        exact ih m hm
    | event ev ks dt =>
      simp only [step, handleEvent] at hstep
      by_cases hq : ev = Event.QUIT
      · simp only [hq, if_true, Option.some.injEq] at hstep
        subst hstep
        exact ih m hm
      · simp only [hq, if_false] at hstep
        cases hs : a.gameState with
        | INTRO =>
          simp only [hs] at hstep
          rcases handleIntro_spec ev ks dt a b hstep with ⟨_, _, _, _, m0, c0, hc, hb⟩ | ⟨_, _, hb⟩
          · rw [MazeLevel.create_eq] at hc
            simp only [Option.some.injEq, Prod.mk.injEq] at hc
            rw [hb] at hm
            simp only [Option.some.injEq] at hm
            rw [← hm, ← hc.1]
            exact ⟨rfl, rfl, rfl, Or.inl ⟨rfl, rfl⟩⟩
          · rw [hb] at hm
            exact ih m hm
        | MAZE =>
          simp only [hs] at hstep
          obtain ⟨m0, _, hcase⟩ := handleMaze_spec ks dt a b hstep
          rcases hcase with ⟨_, _, hb⟩ | ⟨_, _, hb⟩
          · rw [hb] at hm
            simp at hm
          · rw [hb] at hm
            exact ih m hm
        | VICTORY =>
          simp only [hs, Option.some.injEq] at hstep
          subst hstep
          have hb : (handleVictory ev a).mazeLevel = a.mazeLevel := by
            unfold handleVictory
            split <;> rfl
          rw [hb] at hm
          exact ih m hm

/-- In a run from the initial state, a wall reset whose `update` is defined
has read the cache (1, 1) and puts the character at (48, 69). -/
theorem defined_wall_reset (g : Game) (m m1 : MazeLevel) (c1 : Character) (dt : ℚ)
    (gridY gridX : Int) (hreach : Reaches initial g) (hm : g.mazeLevel = some m)
    (hnc : m.levelCompleted = false) (hg : m.gridCell g.character = some (gridY, gridX))
    (hwall : MazeLevel.cellAt m.mazeMap gridY gridX = some 1)
    (hu : m.update g.character dt = some (m1, c1)) :
    (m.startX = some 1 ∧ m.startY = some 1) ∧ m1 = m ∧ c1 = g.character.moveTo 48 69 := by
  obtain ⟨i1, i2, i3, i4⟩ := reaches_initial_cache g hreach m hm
  rw [MazeLevel.update_of_cell m g.character dt gridY gridX 1 hnc hg hwall, if_pos rfl] at hu
  rcases i4 with ⟨h5, h6⟩ | ⟨h5, h6⟩
  · simp [MazeLevel.resetPosition, h5] at hu
  · have hr := MazeLevel.resetPosition_rendered m ⟨i1, i2, i3, h5, h6⟩
    rw [hr] at hu
    simp only [Option.map_some', Option.some.injEq, Prod.mk.injEq] at hu
    refine ⟨⟨h5, h6⟩, hu.1.symm, ?_⟩
    rw [← hu.2]
    norm_num

end Game

end CastleGame
